import Mathlib

/-!
Verification development for the data transformation pipeline in
`backend/app/transformations.py` (marketing-report ETL engine).

The Python module is shallowly embedded below.  Modelling conventions:

* A Python row dict is an association list `Row := List (String × Value)`
  with unique keys in insertion order; dict item assignment is `dset`
  (update in place if the key is present, else append), matching CPython
  dict semantics.
* Python scalars are `Value` (`str`, `int`, `float`, `bool`, `None`).
  Python floats are modelled as rationals; `str(float(v))` is modelled by
  an exact decimal rendering (exact for every decimal fraction of up to
  17 fractional digits, which covers all values used in the theorems and
  witnesses; non-finite floats and exponent notation are outside the
  model).
* Python `==` on scalars (used for group keys, join keys and filter `eq`)
  identifies `1`, `1.0` and `True`; this is modelled by the
  canonicalisation `keyCanon` which maps every numeric value to its
  rational value.
* Exceptions are `Except PyErr`, where `PyErr.tErr` is the module's own
  `TransformationError` and `PyErr.exc name msg` is any other Python
  exception (`name` is the exception class name, `msg` its `str()`).
-/

/-- Scalar value stored in a row: Python str, int, float, bool or None. -/
inductive Value where
  | str (s : String)
  | int (n : Int)
  | float (q : ℚ)
  | bool (b : Bool)
  | null
deriving DecidableEq, Repr

/-- Errors: `tErr` is the pipeline's own `TransformationError`; `exc` is any
other Python exception, carrying the class name and the message. -/
inductive PyErr where
  | tErr (msg : String)
  | exc (name : String) (msg : String)
deriving DecidableEq, Repr

instance {ε α : Type} [DecidableEq ε] [DecidableEq α] : DecidableEq (Except ε α) := fun x y =>
  match x, y with
  | Except.ok a, Except.ok b => decidable_of_iff (a = b) (by simp)
  | Except.error a, Except.error b => decidable_of_iff (a = b) (by simp)
  | Except.ok _, Except.error _ => isFalse (fun hc => by cases hc)
  | Except.error _, Except.ok _ => isFalse (fun hc => by cases hc)

/-- A row: association list from column name to scalar, in insertion order. -/
abbrev Row := List (String × Value)

/-- A table: ordered list of rows. -/
abbrev Table := List Row

/-- Named table set: mapping from source key to table, threaded through a run. -/
abbrev NTS := List (String × Table)

/-- Python dict lookup: value of the first (hence unique) binding of `k`. -/
def dlookup {κ α : Type} [DecidableEq κ] (l : List (κ × α)) (k : κ) : Option α :=
  match l with
  | [] => Option.none
  | kv :: t => if kv.1 = k then some kv.2 else dlookup t k

/-- Python dict item assignment `d[k] = v`: overwrite in place if `k` is
bound, else append a new binding. -/
def dset {κ α : Type} [DecidableEq κ] (l : List (κ × α)) (k : κ) (v : α) : List (κ × α) :=
  match l with
  | [] => [(k, v)]
  | kv :: t => if kv.1 = k then (k, v) :: t else kv :: dset t k v

/-- Python `row.get(col, d)`: the bound value, or the default `d`. -/
def pyGet (r : Row) (c : String) (d : Value) : Value :=
  (dlookup r c).getD d

/-- Canonical form realising Python `==` on scalars: numeric values
(`int`, `float`, `bool`) compare by numeric value, so all are mapped to a
`float`; other values only equal themselves. -/
def keyCanon : Value → Value
  | Value.int n => Value.float (n : ℚ)
  | Value.bool b => Value.float (if b then 1 else 0)
  | v => v

/-- Python `==` on scalars. -/
def pyEqB (a b : Value) : Bool :=
  keyCanon a = keyCanon b

/-- Numeric view of a value: Python treats `bool` as an `int`. -/
def Value.toNum : Value → Option ℚ
  | Value.int n => some (n : ℚ)
  | Value.float q => some q
  | Value.bool b => some (if b then 1 else 0)
  | _ => Option.none

/-- Python `a <= b` on scalars: defined for two numbers or two strings,
a `TypeError` (modelled as `Option.none`) otherwise. -/
def pyLeB (a b : Value) : Option Bool :=
  match a.toNum, b.toNum with
  | some x, some y => some (decide (x ≤ y))
  | _, _ =>
    match a, b with
    | Value.str s, Value.str t => some (!(decide (t < s)))
    | _, _ => Option.none

/-- Python `a < b` on scalars, `Option.none` meaning `TypeError`. -/
def pyLtB (a b : Value) : Option Bool :=
  match a.toNum, b.toNum with
  | some x, some y => some (decide (x < y))
  | _, _ =>
    match a, b with
    | Value.str s, Value.str t => some (decide (s < t))
    | _, _ => Option.none

/-- True when Python can order the two values (no `TypeError`). -/
def comparableB (a b : Value) : Bool :=
  (pyLeB a b).isSome

/-- Single-quote character, used in Python error message texts. -/
def sqc : String :=
  String.singleton (Char.ofNat 39)

/-- Python string containment `sub in s` (naive substring search). -/
def listContains (s sub : List Char) : Bool :=
  match s with
  | [] => sub.isEmpty
  | _ :: t => sub.isPrefixOf s || listContains t sub

/-- Python `sub in s` on strings. -/
def strContainsB (s sub : String) : Bool :=
  listContains s.toList sub.toList

/-- Worker for `str.replace` with a nonempty pattern: replace every
non-overlapping occurrence, scanning left to right.  The fuel argument
makes the recursion structural; it is called with the string length,
which always suffices since every step consumes at least one character. -/
def pyReplaceAux (old new : List Char) : Nat → List Char → List Char
  | _, [] => []
  | 0, s => s
  | fuel + 1, c :: t =>
    if old.isPrefixOf (c :: t) ∧ old ≠ [] then
      new ++ pyReplaceAux old new fuel ((c :: t).drop old.length)
    else
      c :: pyReplaceAux old new fuel t

/-- Python `s.replace(old, new)`.  An empty `old` interleaves `new`
around every character, as CPython does. -/
def pyReplace (s old new : String) : String :=
  if old.isEmpty then
    ⟨new.toList ++ s.toList.flatMap (fun c => c :: new.toList)⟩
  else
    ⟨pyReplaceAux old.toList new.toList s.toList.length s.toList⟩

/-- Digit list to natural number. -/
def digitsToNat (ds : List Char) : Nat :=
  ds.foldl (fun a c => a * 10 + (c.toNat - 48)) 0

/-- Decimal digits (at most `k`) of the fractional part of a nonnegative
rational, most significant first. -/
def fracDigits : Nat → ℚ → List Char
  | 0, _ => []
  | k + 1, r =>
    let r10 := r * 10
    let d : Int := ⌊r10⌋
    Char.ofNat (48 + d.toNat) :: fracDigits k (r10 - (d : ℚ))

/-- Drop trailing zero digits (keeping at least one digit). -/
def stripZeros (ds : List Char) : List Char :=
  let t := (ds.reverse.dropWhile (fun c => c = '0')).reverse
  if t.isEmpty then ['0'] else t

/-- Model of Python `str(float(x))`: sign, integer part, a dot, and the
fractional digits with trailing zeros removed (`10.0`, `-3.0`, `0.5`).
Exact for decimal fractions of up to 17 fractional digits. -/
def renderPyFloat (q : ℚ) : String :=
  let a : ℚ := |q|
  let ip : Int := ⌊a⌋
  let frac := stripZeros (fracDigits 17 (a - (ip : ℚ)))
  (if q < 0 then "-" else "") ++ toString ip ++ "." ++ ⟨frac⟩

/-- Parse an optionally signed decimal literal with optional fractional
part and optional exponent, as accepted by Python `float(str)`;
`Option.none` models the `ValueError` raised on anything else.  (The
`inf`/`nan` spellings are outside the model.) -/
def parseFloatStr (s : String) : Option ℚ :=
  let cs := (s.toList.dropWhile (fun c => c = ' ')).reverse.dropWhile (fun c => c = ' ') |>.reverse
  let (sign, cs) : ℚ × List Char :=
    match cs with
    | '-' :: t => (-1, t)
    | '+' :: t => (1, t)
    | _ => (1, cs)
  let ip := cs.takeWhile Char.isDigit
  let cs1 := cs.dropWhile Char.isDigit
  let (fp, cs2) : List Char × List Char :=
    match cs1 with
    | '.' :: t => (t.takeWhile Char.isDigit, t.dropWhile Char.isDigit)
    | _ => ([], cs1)
  if ip.isEmpty ∧ fp.isEmpty then Option.none
  else
    let base : ℚ := (digitsToNat ip : ℚ) + (digitsToNat fp : ℚ) / ((10 : ℚ) ^ fp.length)
    match cs2 with
    | [] => some (sign * base)
    | e :: t =>
      if e = 'e' ∨ e = 'E' then
        let (esign, t1) : Int × List Char :=
          match t with
          | '-' :: t2 => (-1, t2)
          | '+' :: t2 => (1, t2)
          | _ => (1, t)
        if t1.isEmpty ∨ ¬ t1.all Char.isDigit then Option.none
        else some (sign * base * (10 : ℚ) ^ (esign * (digitsToNat t1 : Int)))
      else Option.none

/-- Python `float(v)` on a scalar. -/
def pyFloat : Value → Except PyErr ℚ
  | Value.int n => Except.ok (n : ℚ)
  | Value.float q => Except.ok q
  | Value.bool b => Except.ok (if b then 1 else 0)
  | Value.str s =>
    match parseFloatStr s with
    | some q => Except.ok q
    | Option.none =>
      Except.error (PyErr.exc "ValueError"
        ("could not convert string to float: " ++ sqc ++ s ++ sqc))
  | Value.null =>
    Except.error (PyErr.exc "TypeError"
      "float() argument must be a string or a real number")

/-- Python `str(v)` on a scalar. -/
def pyStr : Value → String
  | Value.str s => s
  | Value.int n => toString n
  | Value.float q => renderPyFloat q
  | Value.bool b => if b then "True" else "False"
  | Value.null => "None"

/-- Round half to even (Python `round`) of a rational to an integer. -/
def roundHalfEven (x : ℚ) : Int :=
  let n : Int := ⌊x⌋
  let r : ℚ := x - (n : ℚ)
  if r < 1 / 2 then n
  else if 1 / 2 < r then n + 1
  else if n % 2 = 0 then n else n + 1

/-- Python `round(x, 4)` on the rational model of floats. -/
def roundPy4 (q : ℚ) : ℚ :=
  (roundHalfEven (q * 10000) : ℚ) / 10000

/-- Token of the arithmetic expression fragment accepted by the model of
Python `eval` used in `CalculateTransformation`. -/
inductive Tok where
  | num (isFloat : Bool) (q : ℚ)
  | ident (s : String)
  | plus
  | minus
  | star
  | slash
  | lparen
  | rparen
deriving DecidableEq, Repr

/-- Abstract syntax of the evaluated expressions: numeric literals, bare
names (which raise `NameError` at evaluation time), unary sign and the
four arithmetic operators. -/
inductive PExpr where
  | num (isFloat : Bool) (q : ℚ)
  | name (s : String)
  | pos (e : PExpr)
  | neg (e : PExpr)
  | add (a b : PExpr)
  | sub (a b : PExpr)
  | mul (a b : PExpr)
  | div (a b : PExpr)
deriving DecidableEq, Repr

/-- Syntax error value used by the tokenizer and parser models. -/
def synErr : PyErr :=
  PyErr.exc "SyntaxError" "invalid syntax"

/-- Fuel-driven tokenizer for the arithmetic fragment: numbers
(`12`, `12.5`, `.5`, `5.`), identifiers, `+ - * / ( )` and spaces.  The
fuel is one more than the character count, which always suffices since
every step consumes at least one character. -/
def tokenizeF : Nat → List Char → Except PyErr (List Tok)
  | 0, _ => Except.error synErr
  | _, [] => Except.ok []
  | n + 1, c :: cs =>
    if c = ' ' then tokenizeF n cs
    else if c = '+' then (tokenizeF n cs).map (fun ts => Tok.plus :: ts)
    else if c = '-' then (tokenizeF n cs).map (fun ts => Tok.minus :: ts)
    else if c = '*' then (tokenizeF n cs).map (fun ts => Tok.star :: ts)
    else if c = '/' then (tokenizeF n cs).map (fun ts => Tok.slash :: ts)
    else if c = '(' then (tokenizeF n cs).map (fun ts => Tok.lparen :: ts)
    else if c = ')' then (tokenizeF n cs).map (fun ts => Tok.rparen :: ts)
    else if c.isDigit then
      let ds := (c :: cs).takeWhile Char.isDigit
      let rest := (c :: cs).dropWhile Char.isDigit
      match rest with
      | '.' :: r2 =>
        let fs := r2.takeWhile Char.isDigit
        let r3 := r2.dropWhile Char.isDigit
        (tokenizeF n r3).map
          (fun ts =>
            Tok.num true ((digitsToNat ds : ℚ) + (digitsToNat fs : ℚ) / ((10 : ℚ) ^ fs.length)) :: ts)
      | _ => (tokenizeF n rest).map (fun ts => Tok.num false (digitsToNat ds : ℚ) :: ts)
    else if c = '.' then
      let fs := cs.takeWhile Char.isDigit
      let r2 := cs.dropWhile Char.isDigit
      if fs.isEmpty then Except.error synErr
      else (tokenizeF n r2).map
        (fun ts => Tok.num true ((digitsToNat fs : ℚ) / ((10 : ℚ) ^ fs.length)) :: ts)
    else if c.isAlpha ∨ c = '_' then
      let ds := (c :: cs).takeWhile (fun d => d.isAlphanum || d = '_')
      let rest := (c :: cs).dropWhile (fun d => d.isAlphanum || d = '_')
      (tokenizeF n rest).map (fun ts => Tok.ident ⟨ds⟩ :: ts)
    else Except.error synErr

/-- Tokenize a whole string. -/
def tokenize (s : String) : Except PyErr (List Tok) :=
  tokenizeF (s.toList.length + 1) s.toList

/-- Recursive-descent parser for the fragment, written as one
fuel-indexed function so the recursion is structural.  `level` selects
the grammar production: 0 parses a sum-level expression
(`term (('+'|'-') term)*`), 1 a product-level expression
(`unary (('*'|'/') unary)*`), 2 a unary-sign expression, 3 an atom
(literal, name or parenthesised expression); 10 and 11 parse the binary
operator tails of levels 0 and 1, threading the accumulated left operand
in `acc`. -/
def parseF : Nat → Nat → PExpr → List Tok → Except PyErr (PExpr × List Tok)
  | 0, _, _, _ => Except.error synErr
  | n + 1, level, acc, ts =>
    if level = 0 then do
      let (e, ts1) ← parseF n 1 acc ts
      parseF n 10 e ts1
    else if level = 10 then
      match ts with
      | Tok.plus :: r => do
        let (e, ts1) ← parseF n 1 acc r
        parseF n 10 (PExpr.add acc e) ts1
      | Tok.minus :: r => do
        let (e, ts1) ← parseF n 1 acc r
        parseF n 10 (PExpr.sub acc e) ts1
      | _ => Except.ok (acc, ts)
    else if level = 1 then do
      let (e, ts1) ← parseF n 2 acc ts
      parseF n 11 e ts1
    else if level = 11 then
      match ts with
      | Tok.star :: r => do
        let (e, ts1) ← parseF n 2 acc r
        parseF n 11 (PExpr.mul acc e) ts1
      | Tok.slash :: r => do
        let (e, ts1) ← parseF n 2 acc r
        parseF n 11 (PExpr.div acc e) ts1
      | _ => Except.ok (acc, ts)
    else if level = 2 then
      match ts with
      | Tok.plus :: r => (parseF n 2 acc r).map (fun et => (PExpr.pos et.1, et.2))
      | Tok.minus :: r => (parseF n 2 acc r).map (fun et => (PExpr.neg et.1, et.2))
      | _ => parseF n 3 acc ts
    else
      match ts with
      | Tok.num f q :: r => Except.ok (PExpr.num f q, r)
      | Tok.ident s :: r => Except.ok (PExpr.name s, r)
      | Tok.lparen :: r => do
        let (e, ts1) ← parseF n 0 acc r
        match ts1 with
        | Tok.rparen :: r2 => Except.ok (e, r2)
        | _ => Except.error synErr
      | _ => Except.error synErr

/-- Parse a whole expression (sum level). -/
def pExprP (fuel : Nat) (ts : List Tok) : Except PyErr (PExpr × List Tok) :=
  parseF fuel 0 (PExpr.num false 0) ts

/-- Evaluate a parsed expression, mirroring CPython arithmetic on the
int/float tower: results carry an `isFloat` flag; any division yields a
float and raises `ZeroDivisionError` on a zero denominator; bare names
raise `NameError` because `eval` is called with empty globals and locals.
Operands evaluate left to right. -/
def evalAST : PExpr → Except PyErr (Bool × ℚ)
  | PExpr.num f q => Except.ok (f, q)
  | PExpr.name s =>
    Except.error (PyErr.exc "NameError" ("name " ++ sqc ++ s ++ sqc ++ " is not defined"))
  | PExpr.pos e => evalAST e
  | PExpr.neg e => (evalAST e).map (fun fq => (fq.1, -fq.2))
  | PExpr.add a b => do
    let x ← evalAST a
    let y ← evalAST b
    Except.ok (x.1 || y.1, x.2 + y.2)
  | PExpr.sub a b => do
    let x ← evalAST a
    let y ← evalAST b
    Except.ok (x.1 || y.1, x.2 - y.2)
  | PExpr.mul a b => do
    let x ← evalAST a
    let y ← evalAST b
    Except.ok (x.1 || y.1, x.2 * y.2)
  | PExpr.div a b => do
    let x ← evalAST a
    let y ← evalAST b
    if y.2 = 0 then
      Except.error (PyErr.exc "ZeroDivisionError"
        (if x.1 || y.1 then "float division by zero" else "division by zero"))
    else Except.ok (true, x.2 / y.2)

/-- Model of `eval(expr, dict of empty builtins, empty dict)` restricted to the
arithmetic fragment that the calculate formulas are built from: tokenize,
parse, require the whole input to be consumed, then evaluate.  The result
is a Python int or float. -/
def pyEvalStr (s : String) : Except PyErr Value := do
  let ts ← tokenize s
  let (e, rest) ← pExprP (4 * ts.length + 8) ts
  if rest = [] then
    let fq ← evalAST e
    pure (if fq.1 then Value.float fq.2 else Value.int fq.2.num)
  else Except.error synErr

/-- Substitution loop of `CalculateTransformation.transform` (lines
259-265): for each column of the row, in insertion order, if the column
name occurs as a substring of the current expression, replace every
occurrence by `str(float(value))`, a `None` value being first replaced
by `0`.  Columns absent from the row are never substituted. -/
def substCols (formula : String) (row : Row) : Except PyErr String :=
  row.foldlM
    (fun expr kv =>
      if strContainsB expr kv.1 then do
        let v := if kv.2 = Value.null then Value.int 0 else kv.2
        let q ← pyFloat v
        pure (pyReplace expr kv.1 (renderPyFloat q))
      else pure expr)
    formula

/-- Value computed for one row by the `try` block of
`CalculateTransformation.transform`: substitute, evaluate, and round a
float result to 4 decimal places. -/
def calcRowValue (formula : String) (row : Row) : Except PyErr Value := do
  let expr ← substCols formula row
  let v ← pyEvalStr expr
  pure (match v with
    | Value.float q => Value.float (roundPy4 q)
    | v => v)

/-- True for the exception classes caught by the per-row handler of
`CalculateTransformation.transform` (line 270). -/
def PyErr.isCaughtCalc : PyErr → Bool
  | PyErr.exc n _ => n = "ZeroDivisionError" || n = "ValueError" || n = "TypeError"
  | _ => false

/-- Per-row behaviour of `CalculateTransformation.transform`: on success
write the computed value into `output_column`; on a caught error write
`None`; any other exception propagates. -/
def calcRow (formula outCol : String) (row : Row) : Except PyErr Row :=
  match calcRowValue formula row with
  | Except.ok v => Except.ok (dset row outCol v)
  | Except.error e =>
    if e.isCaughtCalc then Except.ok (dset row outCol Value.null)
    else Except.error e

/-- Python truthiness of `config.get(k)` for string-valued keys: a missing
key gives `None` (falsy) and an empty string is falsy, anything else is
truthy.  This is the `if not all([...])` check of every operator. -/
def truthyS : Option String → Bool
  | some s => !s.isEmpty
  | Option.none => false

/-- Error text `Source 'src' not found`. -/
def srcNotFound (src : String) : PyErr :=
  PyErr.tErr ("Source " ++ sqc ++ src ++ sqc ++ " not found")

/-- Outcome of `regex.search(value)` for a compiled pattern: no match, a
match for a pattern without capturing groups, or a match for a pattern
with groups whose first group is `g1` (`Option.none` when the group did
not participate in the match). -/
inductive ReOutcome where
  | noMatch
  | matchNoGroups
  | matched (g1 : Option String)

/-- Config of `ExtractTransformation.transform`.  The `re` module is
external to the transformation engine, so the compiled pattern is
modelled by an oracle: `regex` is the search function of the compiled
pattern, or the `re.error` message when compilation fails. -/
structure ExtractConfig where
  source : Option String := Option.none
  column : Option String := Option.none
  pattern : Option String := Option.none
  output_column : Option String := Option.none
  regex : Except String (String → ReOutcome) := Except.ok (fun _ => ReOutcome.noMatch)

/-- Per-row output of `ExtractTransformation`: write the first captured
group if the match has groups, else the stringified original value. -/
def extractRow (column outCol : String) (search : String → ReOutcome) (r : Row) : Row :=
  let value := pyStr (pyGet r column (Value.str ""))
  match search value with
  | ReOutcome.matched g1 =>
    dset r outCol (match g1 with | some s => Value.str s | Option.none => Value.null)
  | _ => dset r outCol (Value.str value)

/-- Model of `ExtractTransformation.transform` (lines 25-51). -/
def extractTransform (cfg : ExtractConfig) (data : NTS) : Except PyErr NTS :=
  if ¬ (truthyS cfg.source && truthyS cfg.column && truthyS cfg.pattern
        && truthyS cfg.output_column) then
    Except.error (PyErr.tErr "extract requires: source, column, pattern, output_column")
  else
    let src := cfg.source.getD ""
    match dlookup data src with
    | Option.none => Except.error (srcNotFound src)
    | some rows =>
      match cfg.regex with
      | Except.error m => Except.error (PyErr.tErr ("Invalid regex pattern: " ++ m))
      | Except.ok search =>
        Except.ok (dset data src
          (rows.map (extractRow (cfg.column.getD "") (cfg.output_column.getD "") search)))

/-- Config of `GroupByTransformation.transform`. -/
structure GroupByConfig where
  source : Option String := Option.none
  columns : List String := []
  aggregations : List (String × String) := []

/-- Grouping key of a row: the tuple of values at the grouping columns,
missing columns replaced by the empty string (line 71). -/
def keyTuple (columns : List String) (r : Row) : List Value :=
  columns.map (fun c => pyGet r c (Value.str ""))

/-- Python `==` on key tuples. -/
def pyEqKey (a b : List Value) : Bool :=
  a.map keyCanon = b.map keyCanon

/-- One step of building the insertion-ordered group map
`defaultdict(list)`: append the row to its group, or open a new group at
the end. -/
def insGroup (k : List Value) (r : Row) : List (List Value × List Row) → List (List Value × List Row)
  | [] => [(k, [r])]
  | g :: t => if pyEqKey g.1 k then (g.1, g.2 ++ [r]) :: t else g :: insGroup k r t

/-- The group map of lines 69-72: groups in first-seen key order, each
holding its rows in table order. -/
def groupsOf (columns : List String) (rows : List Row) : List (List Value × List Row) :=
  rows.foldl (fun acc r => insGroup (keyTuple columns r) r acc) []

/-- Values aggregated for a column: the column's values over the group's
rows, skipping rows where the column is missing or `None` (line 85). -/
def aggValues (col : String) (rows : List Row) : List Value :=
  rows.filterMap (fun r =>
    match dlookup r col with
    | some v => if v = Value.null then Option.none else some v
    | Option.none => Option.none)

/-- Python `a + b` as used by `sum`: numeric addition (floats are
contagious), `TypeError` otherwise. -/
def pyAdd (a b : Value) : Except PyErr Value :=
  match a.toNum, b.toNum with
  | some x, some y =>
    Except.ok (match a, b with
      | Value.float _, _ => Value.float (x + y)
      | _, Value.float _ => Value.float (x + y)
      | _, _ => Value.int (x + y).num)
  | _, _ => Except.error (PyErr.exc "TypeError" "unsupported operand type(s) for +")

/-- Python `sum(values)` (starts from the int `0`). -/
def pySum (values : List Value) : Except PyErr Value :=
  values.foldlM pyAdd (Value.int 0)

/-- Python true division of two scalars. -/
def pyDiv (a b : Value) : Except PyErr Value :=
  match a.toNum, b.toNum with
  | some x, some y =>
    if y = 0 then Except.error (PyErr.exc "ZeroDivisionError" "division by zero")
    else Except.ok (Value.float (x / y))
  | _, _ => Except.error (PyErr.exc "TypeError" "unsupported operand type(s) for /")

/-- Python `min` of a nonempty list (`TypeError` on incomparable items). -/
def pyMin : List Value → Except PyErr Value
  | [] => Except.error (PyErr.exc "ValueError" "min() arg is an empty sequence")
  | v :: t =>
    t.foldlM
      (fun best x =>
        match pyLtB x best with
        | some true => Except.ok x
        | some false => Except.ok best
        | Option.none =>
          Except.error (PyErr.exc "TypeError" "comparison not supported between instances"))
      v

/-- Python `max` of a nonempty list. -/
def pyMax : List Value → Except PyErr Value
  | [] => Except.error (PyErr.exc "ValueError" "max() arg is an empty sequence")
  | v :: t =>
    t.foldlM
      (fun best x =>
        match pyLtB best x with
        | some true => Except.ok x
        | some false => Except.ok best
        | Option.none =>
          Except.error (PyErr.exc "TypeError" "comparison not supported between instances"))
      v

/-- Aggregation dispatch of lines 87-102. -/
def aggApply (aggFunc : String) (values : List Value) : Except PyErr Value :=
  if aggFunc = "sum" then pySum values
  else if aggFunc = "avg" then
    if values.isEmpty then Except.ok (Value.int 0)
    else do
      let s ← pySum values
      pyDiv s (Value.int values.length)
  else if aggFunc = "count" then Except.ok (Value.int values.length)
  else if aggFunc = "min" then
    if values.isEmpty then Except.ok (Value.int 0) else pyMin values
  else if aggFunc = "max" then
    if values.isEmpty then Except.ok (Value.int 0) else pyMax values
  else if aggFunc = "first" then Except.ok (values.head?.getD Value.null)
  else if aggFunc = "last" then Except.ok (values.getLast?.getD Value.null)
  else Except.error (PyErr.tErr ("Unknown aggregation function: " ++ aggFunc))

/-- Output row for one group (lines 76-104): the grouping columns set to
the key values, then one field per aggregation entry. -/
def groupRow (columns : List String) (aggs : List (String × String)) (g : List Value × List Row) :
    Except PyErr Row := do
  let base := (columns.zip g.1).foldl (fun nr cv => dset nr cv.1 cv.2) []
  aggs.foldlM
    (fun nr ca => do
      let v ← aggApply ca.2 (aggValues ca.1 g.2)
      pure (dset nr ca.1 v))
    base

/-- Model of `GroupByTransformation.transform` (lines 57-107). -/
def groupByTransform (cfg : GroupByConfig) (data : NTS) : Except PyErr NTS :=
  if ¬ (truthyS cfg.source) ∨ cfg.columns = [] then
    Except.error (PyErr.tErr "group_by requires: source, columns")
  else
    let src := cfg.source.getD ""
    match dlookup data src with
    | Option.none => Except.error (srcNotFound src)
    | some rows => do
      let out ← (groupsOf cfg.columns rows).mapM (groupRow cfg.columns cfg.aggregations)
      pure (dset data src out)

/-- Config of `JoinTransformation.transform` (`onCol` is the `on` key). -/
structure JoinConfig where
  left : Option String := Option.none
  right : Option String := Option.none
  onCol : Option String := Option.none
  how : String := "inner"
  output : Option String := Option.none

/-- Join key of a row: the `on` column's value, `""` when absent
(lines 134 and 141). -/
def joinKey (onCol : String) (r : Row) : Value :=
  pyGet r onCol (Value.str "")

/-- One step of building the right-row index `defaultdict(list)`. -/
def insIdx (k : Value) (r : Row) : List (Value × List Row) → List (Value × List Row)
  | [] => [(k, [r])]
  | g :: t => if pyEqB g.1 k then (g.1, g.2 ++ [r]) :: t else g :: insIdx k r t

/-- Index of right rows keyed by join-column value (lines 132-135). -/
def rightIndexOf (onCol : String) (rows : List Row) : List (Value × List Row) :=
  rows.foldl (fun acc r => insIdx (joinKey onCol r) r acc) []

/-- Python `right_index.get(key, [])`. -/
def idxLookup (idx : List (Value × List Row)) (k : Value) : List Row :=
  match idx with
  | [] => []
  | g :: t => if pyEqB g.1 k then g.2 else idxLookup t k

/-- Merged row (lines 147-152): start from the left row, copy every
right field except the join column, prefixing with `right_` any field
already present in the merged row. -/
def mergeRow (onCol : String) (l r : Row) : Row :=
  r.foldl
    (fun m kv =>
      if kv.1 = onCol then m
      else
        let nk := if (dlookup m kv.1).isSome then "right_" ++ kv.1 else kv.1
        dset m nk kv.2)
    l

/-- Rows emitted for one left row (lines 140-155): one merged row per
matching right row; an unmatched left row survives only for
`left`/`outer` joins. -/
def joinExpand (onCol how : String) (idx : List (Value × List Row)) (l : Row) : List Row :=
  let rs := idxLookup idx (joinKey onCol l)
  if rs.isEmpty then
    if how = "left" ∨ how = "outer" then [l] else []
  else rs.map (fun r => mergeRow onCol l r)

/-- Keys of left rows that found at least one match (line 145). -/
def usedKeysOf (onCol : String) (idx : List (Value × List Row)) (leftRows : List Row) : List Value :=
  (leftRows.filter (fun l => !(idxLookup idx (joinKey onCol l)).isEmpty)).map (joinKey onCol)

/-- Membership in a Python set of scalar keys (`==` semantics). -/
def memPyEq (ks : List Value) (k : Value) : Bool :=
  ks.any (fun k0 => pyEqB k0 k)

/-- Full output table of the join (lines 131-163): the per-left-row
expansions, then, for `right`/`outer`, all rows of right-index entries
whose key no left row matched. -/
def joinRows (onCol how : String) (leftRows rightRows : List Row) : List Row :=
  let idx := rightIndexOf onCol rightRows
  let main := leftRows.flatMap (joinExpand onCol how idx)
  let tail :=
    if how = "right" ∨ how = "outer" then
      (idx.filter (fun g => !(memPyEq (usedKeysOf onCol idx leftRows) g.1))).flatMap (fun g => g.2)
    else []
  main ++ tail

/-- Model of `JoinTransformation.transform` (lines 113-165). -/
def joinTransform (cfg : JoinConfig) (data : NTS) : Except PyErr NTS :=
  if ¬ (truthyS cfg.left && truthyS cfg.right && truthyS cfg.onCol) then
    Except.error (PyErr.tErr "join requires: left, right, on")
  else
    let ls := cfg.left.getD ""
    let rs := cfg.right.getD ""
    match dlookup data ls with
    | Option.none =>
      Except.error (PyErr.tErr ("Left source " ++ sqc ++ ls ++ sqc ++ " not found"))
    | some leftRows =>
      match dlookup data rs with
      | Option.none =>
        Except.error (PyErr.tErr ("Right source " ++ sqc ++ rs ++ sqc ++ " not found"))
      | some rightRows =>
        Except.ok (dset data (cfg.output.getD ls)
          (joinRows (cfg.onCol.getD "") cfg.how leftRows rightRows))

/-- Config of `RenameTransformation.transform`. -/
structure RenameConfig where
  source : Option String := Option.none
  mapping : List (String × String) := []

/-- Renamed row (lines 183-187): rebuild the row field by field in
iteration order, mapping each key through `mapping` (identity when
unmapped); colliding targets are overwritten, so the later key wins. -/
def renameRow (mapping : List (String × String)) (r : Row) : Row :=
  r.foldl (fun nr kv => dset nr ((dlookup mapping kv.1).getD kv.1) kv.2) []

/-- Model of `RenameTransformation.transform` (lines 171-190). -/
def renameTransform (cfg : RenameConfig) (data : NTS) : Except PyErr NTS :=
  if ¬ (truthyS cfg.source) ∨ cfg.mapping = [] then
    Except.error (PyErr.tErr "rename requires: source, mapping")
  else
    let src := cfg.source.getD ""
    match dlookup data src with
    | Option.none => Except.error (srcNotFound src)
    | some rows => Except.ok (dset data src (rows.map (renameRow cfg.mapping)))

/-- Config of `FilterTransformation.transform`; a missing `value` key
reads as Python `None`. -/
structure FilterConfig where
  source : Option String := Option.none
  column : Option String := Option.none
  operator : Option String := Option.none
  value : Value := Value.null

/-- Lift a partial comparison into the Python `TypeError` it raises. -/
def liftCmp (o : Option Bool) : Except PyErr Bool :=
  match o with
  | some b => Except.ok b
  | Option.none =>
    Except.error (PyErr.exc "TypeError" "comparison not supported between instances")

/-- The `matches` predicate of lines 208-232 applied to a row value. -/
def filterMatches (op : String) (value rv : Value) : Except PyErr Bool :=
  if op = "eq" then Except.ok (pyEqB rv value)
  else if op = "ne" then Except.ok (!(pyEqB rv value))
  else if op = "gt" then liftCmp (pyLtB value rv)
  else if op = "lt" then liftCmp (pyLtB rv value)
  else if op = "gte" then liftCmp (pyLeB value rv)
  else if op = "lte" then liftCmp (pyLeB rv value)
  else if op = "contains" then Except.ok (strContainsB (pyStr rv) (pyStr value))
  else if op = "startswith" then Except.ok ((pyStr rv).startsWith (pyStr value))
  else if op = "endswith" then Except.ok ((pyStr rv).endsWith (pyStr value))
  else if op = "is_null" then Except.ok (rv == Value.null || pyEqB rv (Value.str ""))
  else if op = "not_null" then Except.ok (!(rv == Value.null || pyEqB rv (Value.str "")))
  else Except.error (PyErr.tErr ("Unknown operator: " ++ op))

/-- Python list comprehension with a fallible predicate: keep matching
rows in order, the first exception propagating. -/
def filterRowsM (p : Row → Except PyErr Bool) : List Row → Except PyErr (List Row)
  | [] => Except.ok []
  | r :: t => do
    let b ← p r
    let rest ← filterRowsM p t
    pure (if b then r :: rest else rest)

/-- Model of `FilterTransformation.transform` (lines 196-236). -/
def filterTransform (cfg : FilterConfig) (data : NTS) : Except PyErr NTS :=
  if ¬ (truthyS cfg.source && truthyS cfg.column && truthyS cfg.operator) then
    Except.error (PyErr.tErr "filter requires: source, column, operator")
  else
    let src := cfg.source.getD ""
    match dlookup data src with
    | Option.none => Except.error (srcNotFound src)
    | some rows => do
      let out ← filterRowsM
        (fun r => filterMatches (cfg.operator.getD "") cfg.value (pyGet r (cfg.column.getD "") Value.null))
        rows
      pure (dset data src out)

/-- Config of `CalculateTransformation.transform`. -/
structure CalcConfig where
  source : Option String := Option.none
  output_column : Option String := Option.none
  formula : Option String := Option.none

/-- Model of `CalculateTransformation.transform` (lines 242-276). -/
def calcTransform (cfg : CalcConfig) (data : NTS) : Except PyErr NTS :=
  if ¬ (truthyS cfg.source && truthyS cfg.output_column && truthyS cfg.formula) then
    Except.error (PyErr.tErr "calculate requires: source, output_column, formula")
  else
    let src := cfg.source.getD ""
    match dlookup data src with
    | Option.none => Except.error (srcNotFound src)
    | some rows => do
      let out ← rows.mapM (calcRow (cfg.formula.getD "") (cfg.output_column.getD ""))
      pure (dset data src out)

/-- Config of `SortTransformation.transform`. -/
structure SortConfig where
  source : Option String := Option.none
  column : Option String := Option.none
  descending : Bool := false

/-- Sort key of a row: the column's value, `""` when missing (line 295). -/
def sortKey (col : String) (r : Row) : Value :=
  pyGet r col (Value.str "")

/-- Row comparison used by the sort: ascending by key, or the reversed
comparison when `descending` (Python `reverse=True`).  The `getD` branch
is only reached on incomparable keys, which `sortTransform` rules out
beforehand. -/
def rowLe (col : String) (desc : Bool) (a b : Row) : Bool :=
  if desc then (pyLeB (sortKey col b) (sortKey col a)).getD true
  else (pyLeB (sortKey col a) (sortKey col b)).getD true

/-- Stable insertion: the new element goes after every existing element
`y` with `le y x`, so equal elements keep their original order. -/
def insD (le : Row → Row → Bool) (x : Row) : List Row → List Row
  | [] => [x]
  | y :: ys => if le y x then y :: insD le x ys else x :: y :: ys

/-- Stable insertion sort, processing rows in original order.  Python's
`sorted` is a stable mergesort; any two stable sorts of the same list
under the same total preorder coincide, so this is an exact model on
pairwise-comparable inputs. -/
def insSort (le : Row → Row → Bool) (l : List Row) : List Row :=
  l.foldl (fun acc x => insD le x acc) []

/-- The sorted table of lines 293-297. -/
def sortCore (desc : Bool) (col : String) (rows : List Row) : List Row :=
  insSort (rowLe col desc) rows

/-- True when every pair of sort keys is Python-comparable.  `sorted`
raises `TypeError` exactly when the rows mix incomparable key classes
(it must compare across any class boundary to order the list). -/
def pairwiseComparable (col : String) : List Row → Bool
  | [] => true
  | r :: t =>
    t.all (fun r2 => comparableB (sortKey col r) (sortKey col r2)) && pairwiseComparable col t

/-- Model of `SortTransformation.transform` (lines 282-300). -/
def sortTransform (cfg : SortConfig) (data : NTS) : Except PyErr NTS :=
  if ¬ (truthyS cfg.source && truthyS cfg.column) then
    Except.error (PyErr.tErr "sort requires: source, column")
  else
    let src := cfg.source.getD ""
    match dlookup data src with
    | Option.none => Except.error (srcNotFound src)
    | some rows =>
      if pairwiseComparable (cfg.column.getD "") rows then
        Except.ok (dset data src (sortCore cfg.descending (cfg.column.getD "") rows))
      else
        Except.error (PyErr.exc "TypeError" "comparison not supported between instances")

/-- Operator invocation: the `type` discriminator together with the
config keys that operator reads (each Python config dict is observed by
its operator only through these keys, so this quotient is faithful). -/
inductive OpConfig where
  | extract (c : ExtractConfig)
  | groupBy (c : GroupByConfig)
  | join (c : JoinConfig)
  | rename (c : RenameConfig)
  | filter (c : FilterConfig)
  | calculate (c : CalcConfig)
  | sort (c : SortConfig)

/-- The `type` field of an operator invocation. -/
def opType : OpConfig → Option String
  | OpConfig.extract _ => some "extract"
  | OpConfig.groupBy _ => some "group_by"
  | OpConfig.join _ => some "join"
  | OpConfig.rename _ => some "rename"
  | OpConfig.filter _ => some "filter"
  | OpConfig.calculate _ => some "calculate"
  | OpConfig.sort _ => some "sort"

/-- Dispatch to the operator implementation (`transformation.transform`). -/
def applyOp : OpConfig → NTS → Except PyErr NTS
  | OpConfig.extract c => extractTransform c
  | OpConfig.groupBy c => groupByTransform c
  | OpConfig.join c => joinTransform c
  | OpConfig.rename c => renameTransform c
  | OpConfig.filter c => filterTransform c
  | OpConfig.calculate c => calcTransform c
  | OpConfig.sort c => sortTransform c

/-- The static registry of lines 304-312, as a lookup from type string. -/
def TRANSFORMATIONS : String → Option (OpConfig → NTS → Except PyErr NTS) :=
  fun t =>
    if t = "extract" ∨ t = "group_by" ∨ t = "join" ∨ t = "rename" ∨ t = "filter"
        ∨ t = "calculate" ∨ t = "sort" then
      some applyOp
    else Option.none

/-- Rendered `type` string as it appears in the unknown-type message
(`None` when the key is missing, as Python formats it). -/
def tyStrOf {C : Type} (getType : C → Option String) (c : C) : String :=
  match getType c with
  | some s => s
  | Option.none => "None"

/-- Effect of one step before the executor's wrapping: the unknown-type
error, or the operator's own outcome. -/
def rawStep {C : Type} (getType : C → Option String)
    (reg : String → Option (C → NTS → Except PyErr NTS)) (c : C) (d : NTS) :
    Except PyErr NTS :=
  match (getType c).bind reg with
  | Option.none =>
    Except.error (PyErr.tErr ("Unknown transformation type: " ++ tyStrOf getType c))
  | some f => f c d

/-- Executor error policy of lines 334-337: the pipeline's own errors
propagate unchanged, every other exception at 0-based step `i` of type
`ty` is rewrapped with the step position. -/
def wrapErr (i : Nat) (ty : String) : PyErr → PyErr
  | PyErr.tErr m => PyErr.tErr m
  | PyErr.exc _ m =>
    PyErr.tErr ("Transformation " ++ toString (i + 1) ++ " (" ++ ty ++ ") failed: " ++ m)

/-- Executor loop from step index `i`: run each step in order, stopping
at the first error, wrapped per `wrapErr`. -/
def runFrom {C : Type} (getType : C → Option String)
    (reg : String → Option (C → NTS → Except PyErr NTS)) :
    Nat → List C → NTS → Except PyErr NTS
  | _, [], d => Except.ok d
  | i, c :: cs, d =>
    match rawStep getType reg c d with
    | Except.ok d2 => runFrom getType reg (i + 1) cs d2
    | Except.error e => Except.error (wrapErr i (tyStrOf getType c) e)

/-- Model of `TransformationPipeline.run` (lines 321-339), generic in the
config representation and registry (the executor never inspects configs
beyond the `type` key). -/
def runPipelineP {C : Type} (getType : C → Option String)
    (reg : String → Option (C → NTS → Except PyErr NTS))
    (steps : List C) (data : NTS) : Except PyErr NTS :=
  runFrom getType reg 0 steps data

/-- The pipeline instantiated with the module's own registry. -/
def runPipeline (steps : List OpConfig) (data : NTS) : Except PyErr NTS :=
  runPipelineP opType TRANSFORMATIONS steps data

/-!
Heap model for the aliasing guarantee of `TransformationPipeline.run`.

Rows, lists and dicts are objects with identity (`Nat` addresses) living
in a store.  In the source, no operator ever writes to a pre-existing
row or list object: every emitted row is built by `row.copy()`,
`{**left_row}` or a fresh dict display before any item assignment, and
every emitted table is a fresh list.  Rows and lists are therefore
allocate-only in this model; the single mutation primitive is dict item
assignment (`data[key] = result`, the last line of every operator),
applied to the dict the executor passes along — which is the shallow
copy `data.copy()` taken at the start of `run`, never the caller's dict.
Each heap operator reads the table set through the store, runs the pure
operator on the read value, and allocates its output; this has the same
observable effect as the source's per-operator read/allocate pattern.
-/
structure Heap where
  rows : List (Nat × Row)
  lists : List (Nat × List Nat)
  dicts : List (Nat × List (String × Nat))
  next : Nat

/-- Well-formed heap: every allocated address is below the allocation
counter (holds for every heap built by allocation from empty). -/
def heapWF (h : Heap) : Prop :=
  (∀ p ∈ h.rows, p.1 < h.next) ∧ (∀ p ∈ h.lists, p.1 < h.next) ∧
    (∀ p ∈ h.dicts, p.1 < h.next)

/-- Heap computation: state plus Python exceptions.  The heap is kept on
error (a raised exception does not roll mutations back). -/
def HM (α : Type) : Type :=
  Heap → Heap × Except PyErr α

instance : Monad HM where
  pure a := fun h => (h, Except.ok a)
  bind x f := fun h =>
    match x h with
    | (h1, Except.ok a) => f a h1
    | (h1, Except.error e) => (h1, Except.error e)

/-- Raise an exception. -/
def hFail {α : Type} (e : PyErr) : HM α :=
  fun h => (h, Except.error e)

/-- Read a dict object. -/
def readDict (d : Nat) : HM (List (String × Nat)) :=
  fun h =>
    match dlookup h.dicts d with
    | some e => (h, Except.ok e)
    | Option.none => (h, Except.error (PyErr.exc "RuntimeError" "invalid dict address"))

/-- Read a list object. -/
def readList (a : Nat) : HM (List Nat) :=
  fun h =>
    match dlookup h.lists a with
    | some l => (h, Except.ok l)
    | Option.none => (h, Except.error (PyErr.exc "RuntimeError" "invalid list address"))

/-- Read a row object. -/
def readRow (a : Nat) : HM Row :=
  fun h =>
    match dlookup h.rows a with
    | some r => (h, Except.ok r)
    | Option.none => (h, Except.error (PyErr.exc "RuntimeError" "invalid row address"))

/-- Allocate a fresh row object. -/
def allocRow (r : Row) : HM Nat :=
  fun h => ({ h with rows := h.rows ++ [(h.next, r)], next := h.next + 1 }, Except.ok h.next)

/-- Allocate a fresh list object. -/
def allocList (l : List Nat) : HM Nat :=
  fun h => ({ h with lists := h.lists ++ [(h.next, l)], next := h.next + 1 }, Except.ok h.next)

/-- Allocate a fresh dict object. -/
def allocDict (e : List (String × Nat)) : HM Nat :=
  fun h => ({ h with dicts := h.dicts ++ [(h.next, e)], next := h.next + 1 }, Except.ok h.next)

/-- Dict item assignment `d[k] = a` on the dict object at address `d`. -/
def dictSet (d : Nat) (k : String) (a : Nat) : HM Unit :=
  fun h =>
    match dlookup h.dicts d with
    | some e => ({ h with dicts := dset h.dicts d (dset e k a) }, Except.ok ())
    | Option.none => (h, Except.error (PyErr.exc "RuntimeError" "invalid dict address"))

/-- Effectful map, sequencing left to right. -/
def hMapM {α β : Type} (f : α → HM β) : List α → HM (List β)
  | [] => pure []
  | x :: t => do
    let y ← f x
    let ys ← hMapM f t
    pure (y :: ys)

/-- Read a whole table through the store. -/
def readTable (la : Nat) : HM Table := do
  let addrs ← readList la
  hMapM readRow addrs

/-- Read the whole named table set reachable from dict `d`. -/
def readNTS (d : Nat) : HM NTS := do
  let es ← readDict d
  hMapM (fun ka => do
    let t ← readTable ka.2
    pure (ka.1, t)) es

/-- Allocate a table: fresh row objects and a fresh list. -/
def writeTable (t : Table) : HM Nat := do
  let addrs ← hMapM allocRow t
  allocList addrs

/-- The dict key each operator assigns its result to (`data[source]`,
or `data[output]` for join). -/
def opTarget : OpConfig → String
  | OpConfig.extract c => c.source.getD ""
  | OpConfig.groupBy c => c.source.getD ""
  | OpConfig.join c => c.output.getD (c.left.getD "")
  | OpConfig.rename c => c.source.getD ""
  | OpConfig.filter c => c.source.getD ""
  | OpConfig.calculate c => c.source.getD ""
  | OpConfig.sort c => c.source.getD ""

/-- Heap-level operator application: read the table set, run the pure
operator, allocate the output table, and assign it into the given dict. -/
def hApplyOp (op : OpConfig) (d : Nat) : HM Unit := do
  let nts ← readNTS d
  match applyOp op nts with
  | Except.error e => hFail e
  | Except.ok nts2 =>
    match dlookup nts2 (opTarget op) with
    | some out => do
      let la ← writeTable out
      dictSet d (opTarget op) la
    | Option.none => pure ()

/-- Heap-level executor loop with the error wrapping of lines 325-337. -/
def hRunFrom (d : Nat) : Nat → List OpConfig → HM Unit
  | _, [] => pure ()
  | i, op :: ops => fun h =>
    match hApplyOp op d h with
    | (h1, Except.ok _) => hRunFrom d (i + 1) ops h1
    | (h1, Except.error e) => (h1, Except.error (wrapErr i (tyStrOf opType op) e))

/-- Heap-level model of `TransformationPipeline.run`: shallow-copy the
caller's dict (`result = data.copy()`, line 323), then run every step
against the copy, returning its address. -/
def hRunPipeline (steps : List OpConfig) (d : Nat) : HM Nat := do
  let es ← readDict d
  let d1 ← allocDict es
  hRunFrom d1 0 steps
  pure d1

/-- Pure observation of a table through a heap. -/
def obsTable (h : Heap) (la : Nat) : Option Table := do
  let addrs ← dlookup h.lists la
  addrs.mapM (fun a => dlookup h.rows a)

/-- Pure observation of the named table set reachable from a dict. -/
def obsNTS (h : Heap) (d : Nat) : Option NTS := do
  let es ← dlookup h.dicts d
  es.mapM (fun ka => (obsTable h ka.2).map (fun t => (ka.1, t)))

/-- Heap extension relation: all row and list lookups are preserved, and
all dict lookups except possibly at `dex` are preserved. -/
structure Pres (dex : Nat) (h h2 : Heap) : Prop where
  rowsP : ∀ a r, dlookup h.rows a = some r → dlookup h2.rows a = some r
  listsP : ∀ a l, dlookup h.lists a = some l → dlookup h2.lists a = some l
  dictsP : ∀ a e, a ≠ dex → dlookup h.dicts a = some e → dlookup h2.dicts a = some e

/-- A heap computation preserves every pre-existing object, except
possibly the dict at address `dex`. -/
def HPres (dex : Nat) {α : Type} (m : HM α) : Prop :=
  ∀ h : Heap, Pres dex h (m h).1

/-- Value written by `calcRow` into the output column: the computed value,
or `None` when the row's evaluation raised. -/
def valueOrNull (e : Except PyErr Value) : Value :=
  match e with
  | Except.ok v => v
  | Except.error _ => Value.null

/-- True when a row evaluation outcome is an exception that escapes the
per-row handler (e.g. `NameError`, `SyntaxError`). -/
def isUncaught (e : Except PyErr Value) : Bool :=
  match e with
  | Except.ok _ => false
  | Except.error er => !er.isCaughtCalc

/-- Integer stored at a column (used to read `count` aggregation values). -/
def getIntAt (r : Row) (c : String) : Int :=
  match dlookup r c with
  | some (Value.int n) => n
  | _ => 0

/-- True when the row binds the column to a non-`None` value — exactly the
rows a `count` aggregation counts. -/
def hasNonNull (r : Row) (c : String) : Bool :=
  match dlookup r c with
  | some v => v != Value.null
  | Option.none => false

attribute [local semireducible] Rat.add Rat.mul Rat.inv Rat.sub

/-! Association-list (Python dict) lemmas. -/

theorem dlookup_dset_self {κ α : Type} [DecidableEq κ] (l : List (κ × α)) (k : κ) (v : α) :
    dlookup (dset l k v) k = some v := by
  induction l with
  | nil => simp [dset, dlookup]
  | cons kv t ih =>
    by_cases h : kv.1 = k
    · simp [dset, h, dlookup]
    · simp [dset, h, dlookup, ih]

theorem dlookup_dset_ne {κ α : Type} [DecidableEq κ] (l : List (κ × α)) (k k' : κ) (v : α)
    (h : k' ≠ k) : dlookup (dset l k v) k' = dlookup l k' := by
  induction l with
  | nil => simp [dset, dlookup, Ne.symm h]
  | cons kv t ih =>
    by_cases hk : kv.1 = k
    · subst hk
      simp [dset, dlookup, Ne.symm h]
    · simp only [dset, if_neg hk]
      by_cases hk' : kv.1 = k'
      · simp [dlookup, hk']
      · simp [dlookup, hk', ih]

theorem dlookup_append_of_some {κ α : Type} [DecidableEq κ] {l : List (κ × α)} {k : κ} {v : α}
    (l2 : List (κ × α)) (h : dlookup l k = some v) : dlookup (l ++ l2) k = some v := by
  induction l with
  | nil => simp [dlookup] at h
  | cons kv t ih =>
    by_cases hk : kv.1 = k
    · simpa [dlookup, hk] using h
    · simp only [dlookup, if_neg hk] at h
      simpa [dlookup, hk] using ih h

theorem dset_eq_append {κ α : Type} [DecidableEq κ] {l : List (κ × α)} {k : κ} (v : α)
    (h : dlookup l k = Option.none) : dset l k v = l ++ [(k, v)] := by
  induction l with
  | nil => simp [dset]
  | cons kv t ih =>
    by_cases hk : kv.1 = k
    · simp [dlookup, hk] at h
    · simp only [dlookup, if_neg hk] at h
      simp [dset, hk, ih h]

theorem dlookup_mem {κ α : Type} [DecidableEq κ] {l : List (κ × α)} {k : κ} {v : α}
    (h : dlookup l k = some v) : (k, v) ∈ l := by
  induction l with
  | nil => simp [dlookup] at h
  | cons kv t ih =>
    by_cases hk : kv.1 = k
    · simp only [dlookup, if_pos hk, Option.some.injEq] at h
      obtain ⟨a, b⟩ := kv
      simp only at hk h
      subst hk
      subst h
      exact List.mem_cons_self _ _
    · simp only [dlookup, if_neg hk] at h
      exact List.mem_cons_of_mem _ (ih h)

theorem dlookup_eq_none_of_not_mem {κ α : Type} [DecidableEq κ] {l : List (κ × α)} {k : κ}
    (h : k ∉ l.map Prod.fst) : dlookup l k = Option.none := by
  induction l with
  | nil => rfl
  | cons kv t ih =>
    simp only [List.map_cons, List.mem_cons, not_or] at h
    simp [dlookup, Ne.symm h.1, ih h.2]

theorem mem_fst_of_dlookup {κ α : Type} [DecidableEq κ] {l : List (κ × α)} {k : κ} {v : α}
    (h : dlookup l k = some v) : k ∈ l.map Prod.fst := by
  have := dlookup_mem h
  exact List.mem_map.mpr ⟨(k, v), this, rfl⟩

/-! Pipeline executor: C10 and C4. -/

/-- C10: running a pipeline whose operator list is empty returns, for
every input, the input named table set itself (`data.copy()` in the
source, observationally the identity), and never raises — both for the
generic executor and for the module's own registry. -/
theorem c10_empty_pipeline_identity {C : Type} (getType : C → Option String)
    (reg : String → Option (C → NTS → Except PyErr NTS)) (data : NTS) :
    runPipelineP getType reg [] data = Except.ok data ∧
    runPipeline [] data = Except.ok data :=
  ⟨rfl, rfl⟩

theorem runFrom_spec {C : Type} (getType : C → Option String)
    (reg : String → Option (C → NTS → Except PyErr NTS)) (steps : List C) :
    ∀ (i : Nat) (d : NTS),
      (∃ out, runFrom getType reg i steps d = Except.ok out) ∨
      (∃ n c e dn, steps[n]? = some c ∧
        runFrom getType reg i (steps.take n) d = Except.ok dn ∧
        rawStep getType reg c dn = Except.error e ∧
        runFrom getType reg i steps d =
          Except.error (wrapErr (i + n) (tyStrOf getType c) e)) := by
  induction steps with
  | nil => exact fun i d => Or.inl ⟨d, rfl⟩
  | cons st steps ih =>
    intro i d
    cases hr : rawStep getType reg st d with
    | error e =>
      refine Or.inr ⟨0, st, e, d, by simp, rfl, hr, ?_⟩
      simp [runFrom, hr]
    | ok d2 =>
      have h2 : runFrom getType reg i (st :: steps) d = runFrom getType reg (i + 1) steps d2 := by
        simp [runFrom, hr]
      cases ih (i + 1) d2 with
      | inl h =>
        obtain ⟨out, ho⟩ := h
        exact Or.inl ⟨out, by rw [h2, ho]⟩
      | inr h =>
        obtain ⟨n, c, e, dn, h1, h3, h4, h5⟩ := h
        refine Or.inr ⟨n + 1, c, e, dn, by simpa using h1, ?_, h4, ?_⟩
        · show runFrom getType reg i (List.take (n + 1) (st :: steps)) d = Except.ok dn
          simpa [List.take_succ_cons, runFrom, hr] using h3
        · rw [h2, h5]
          have harith : (i + 1) + n = i + (n + 1) := by omega
          rw [harith]

/-- C4: the first operator-level error terminates execution: either every
step succeeds and the caller receives the fully transformed table set, or
some step `n` (all earlier steps having succeeded) fails and the caller
receives exactly that error after the executor's wrapping — which leaves
the pipeline's own `TransformationError`s untouched and rewraps any other
exception as `Transformation {n+1} ({type}) failed: {message}`. -/
theorem c4_pipeline_first_error_wrapping {C : Type} (getType : C → Option String)
    (reg : String → Option (C → NTS → Except PyErr NTS)) (steps : List C) (data : NTS) :
    ((∃ out, runPipelineP getType reg steps data = Except.ok out) ∨
      (∃ n c e dn, steps[n]? = some c ∧
        runPipelineP getType reg (steps.take n) data = Except.ok dn ∧
        rawStep getType reg c dn = Except.error e ∧
        runPipelineP getType reg steps data =
          Except.error (wrapErr n (tyStrOf getType c) e))) ∧
    (∀ (i : Nat) (ty m : String), wrapErr i ty (PyErr.tErr m) = PyErr.tErr m) ∧
    (∀ (i : Nat) (ty nm m : String),
      wrapErr i ty (PyErr.exc nm m) =
        PyErr.tErr ("Transformation " ++ toString (i + 1) ++ " (" ++ ty ++ ") failed: " ++ m)) := by
  refine ⟨?_, fun _ _ _ => rfl, fun _ _ _ _ => rfl⟩
  have h := runFrom_spec getType reg steps 0 data
  simpa [runPipelineP] using h

/-! Calculate: C1. -/

theorem mapM_ok_of_forall {α β : Type} (F : α → Except PyErr β) (g : α → β) :
    ∀ l : List α, (∀ x ∈ l, F x = Except.ok (g x)) → l.mapM F = Except.ok (l.map g) := by
  intro l
  induction l with
  | nil => intro _; rfl
  | cons x t ih =>
    intro h
    have hx : F x = Except.ok (g x) := h x (List.mem_cons_self _ _)
    have ht := ih (fun y hy => h y (List.mem_cons_of_mem _ hy))
    rw [List.mapM_cons, hx, ht]
    rfl

theorem calcRow_eq_of_not_uncaught (f oc : String) (r : Row)
    (h : isUncaught (calcRowValue f r) = false) :
    calcRow f oc r = Except.ok (dset r oc (valueOrNull (calcRowValue f r))) := by
  unfold calcRow
  cases hv : calcRowValue f r with
  | ok v => simp [valueOrNull, hv]
  | error e =>
    rw [hv] at h
    simp [isUncaught] at h
    simp [valueOrNull, h]

/-- C1 (amended): for every row whose evaluation raises only a caught
exception (`ZeroDivisionError`, `ValueError`, `TypeError`) or none,
Calculate succeeds: the output overwrites the source with one row per
input row, each input row extended at `output_column` with the computed
value — which is `None` exactly when that row's evaluation raised — and
the pipeline continues.  (The original claim fails because a formula
column missing from a row is never substituted, and the resulting
`NameError` escapes the per-row handler and aborts the pipeline; see the
counterexample.) -/
theorem c1_calculate_caught_errors_recover (s oc f : String) (data : NTS) (rows : List Row)
    (hs : s ≠ "") (hoc : oc ≠ "") (hf : f ≠ "")
    (hlook : dlookup data s = some rows)
    (hrows : ∀ r ∈ rows, isUncaught (calcRowValue f r) = false) :
    calcTransform ⟨some s, some oc, some f⟩ data =
      Except.ok (dset data s (rows.map (fun r => dset r oc (valueOrNull (calcRowValue f r))))) ∧
    (∀ (r : Row) (e : PyErr), calcRowValue f r = Except.error e →
      valueOrNull (calcRowValue f r) = Value.null) := by
  constructor
  · have hmap := mapM_ok_of_forall (calcRow f oc)
      (fun r => dset r oc (valueOrNull (calcRowValue f r))) rows
      (fun r hr => calcRow_eq_of_not_uncaught f oc r (hrows r hr))
    unfold calcTransform
    simp only [truthyS, Option.getD_some]
    rw [if_neg]
    · simp only [hlook]
      rw [hmap]
      rfl
    · simp [String.isEmpty_iff, hs, hoc, hf]
  · intro r e he
    simp [valueOrNull, he]

theorem c1_witness :
    calcTransform ⟨some "t", some "y", some "x / 0"⟩ [("t", [[("x", Value.int 10)]])] =
      Except.ok (dset [("t", [[("x", Value.int 10)]])] "t"
        ([[("x", Value.int 10)]].map
          (fun r => dset r "y" (valueOrNull (calcRowValue "x / 0" r))))) :=
  (c1_calculate_caught_errors_recover "t" "y" "x / 0"
    [("t", [[("x", Value.int 10)]])] [[("x", Value.int 10)]]
    (by decide) (by decide) (by decide) (by decide) (by decide)).1

/-- C1 counterexample: with table `[{"cost": 10}]` and formula
`"cost / clicks"`, the column `clicks` is missing from the row, is not
substituted (so it is not treated as 0), and the resulting `NameError`
is not caught: the operator raises instead of writing null, and the
pipeline aborts with the step-wrapped error — contradicting the claim
that a per-row evaluation failure never aborts the pipeline. -/
theorem c1_counterexample :
    calcTransform ⟨some "t", some "y", some "cost / clicks"⟩ [("t", [[("cost", Value.int 10)]])] =
      Except.error (PyErr.exc "NameError"
        ("name " ++ sqc ++ "clicks" ++ sqc ++ " is not defined")) ∧
    runPipeline [OpConfig.calculate ⟨some "t", some "y", some "cost / clicks"⟩]
        [("t", [[("cost", Value.int 10)]])] =
      Except.error (PyErr.tErr
        ("Transformation 1 (calculate) failed: name " ++ sqc ++ "clicks" ++ sqc ++
          " is not defined")) := by
  constructor
  · decide
  · decide

/-! Join: C5 and C9. -/

theorem pyEqB_trans {a b c : Value} (h1 : pyEqB a b = true) (h2 : pyEqB b c = true) :
    pyEqB a c = true := by
  simp only [pyEqB, decide_eq_true_eq] at *
  exact h1.trans h2

theorem pyEqB_symm (a b : Value) : pyEqB a b = pyEqB b a := by
  simp only [pyEqB]
  by_cases h : keyCanon a = keyCanon b
  · simp [h]
  · simp [h, Ne.symm h]

theorem idxLookup_insIdx (k0 : Value) (r : Row) (acc : List (Value × List Row)) (k : Value) :
    idxLookup (insIdx k0 r acc) k =
      if pyEqB k0 k then idxLookup acc k ++ [r] else idxLookup acc k := by
  induction acc with
  | nil =>
    by_cases h : pyEqB k0 k = true
    · simp [insIdx, idxLookup, h]
    · simp only [Bool.not_eq_true] at h
      simp [insIdx, idxLookup, h]
  | cons g t ih =>
    by_cases hg : pyEqB g.1 k0 = true
    · by_cases hk : pyEqB k0 k = true
      · have hgk : pyEqB g.1 k = true := pyEqB_trans hg hk
        simp [insIdx, hg, idxLookup, hgk, hk]
      · have hgk : pyEqB g.1 k = false := by
          cases hq : pyEqB g.1 k with
          | false => rfl
          | true =>
            exfalso
            have : pyEqB k0 k = true := by
              have hsy : pyEqB k0 g.1 = true := by rw [pyEqB_symm]; exact hg
              exact pyEqB_trans hsy hq
            simp [this] at hk
        simp only [Bool.not_eq_true] at hk
        simp [insIdx, hg, idxLookup, hgk, hk]
    · simp only [Bool.not_eq_true] at hg
      by_cases hk2 : pyEqB g.1 k = true
      · have hk0 : pyEqB k0 k = false := by
          cases hq : pyEqB k0 k with
          | false => rfl
          | true =>
            exfalso
            have h1 : pyEqB k k0 = true := by rw [pyEqB_symm]; exact hq
            have h2 : pyEqB g.1 k0 = true := pyEqB_trans hk2 h1
            rw [hg] at h2
            exact Bool.noConfusion h2
        simp [insIdx, hg, idxLookup, hk2, hk0]
      · simp only [Bool.not_eq_true] at hk2
        simp [insIdx, hg, idxLookup, hk2, ih]

theorem idxLookup_rightIndexOf (onCol : String) (rows : List Row) (k : Value) :
    idxLookup (rightIndexOf onCol rows) k =
      rows.filter (fun r => pyEqB (joinKey onCol r) k) := by
  suffices h : ∀ acc, idxLookup (rows.foldl (fun a r => insIdx (joinKey onCol r) r a) acc) k =
      idxLookup acc k ++ rows.filter (fun r => pyEqB (joinKey onCol r) k) by
    simpa [rightIndexOf, idxLookup] using h []
  induction rows with
  | nil => intro acc; simp
  | cons r t ih =>
    intro acc
    simp only [List.foldl_cons]
    rw [ih, idxLookup_insIdx]
    by_cases h : pyEqB (joinKey onCol r) k = true
    · simp [h, List.filter_cons]
    · simp only [Bool.not_eq_true] at h
      simp [h, List.filter_cons]

theorem joinExpand_length_left_ge (onCol : String) (R : List Row) (l : Row) :
    (R.filter (fun r => pyEqB (joinKey onCol r) (joinKey onCol l))).length ≤
      (joinExpand onCol "left" (rightIndexOf onCol R) l).length := by
  unfold joinExpand
  rw [idxLookup_rightIndexOf]
  by_cases h : (R.filter (fun r => pyEqB (joinKey onCol r) (joinKey onCol l))).isEmpty = true
  · rw [List.isEmpty_iff] at h
    simp [h]
  · simp only [Bool.not_eq_true] at h
    simp [h]

theorem joinExpand_length_left_unmatched (onCol : String) (R : List Row) (l : Row)
    (h : R.filter (fun r => pyEqB (joinKey onCol r) (joinKey onCol l)) = []) :
    (joinExpand onCol "left" (rightIndexOf onCol R) l).length = 1 := by
  unfold joinExpand
  rw [idxLookup_rightIndexOf, h]
  simp

theorem joinExpand_length_inner (onCol : String) (idx : List (Value × List Row)) (l : Row) :
    (joinExpand onCol "inner" idx l).length = (idxLookup idx (joinKey onCol l)).length := by
  unfold joinExpand
  by_cases h : (idxLookup idx (joinKey onCol l)).isEmpty = true
  · rw [List.isEmpty_iff] at h
    simp [h]
  · simp only [Bool.not_eq_true] at h
    simp [h]

theorem sum_map_ones (L : List Row) : (L.map (fun _ => (1 : Nat))).sum = L.length := by
  induction L with
  | nil => rfl
  | cons x t ih => simp [ih, Nat.add_comm]

/-- C5: inner-join row count is the sum over left rows of the number of
right rows sharing that row's join-key value (non-unique keys fan out,
one merged row per left-row/matching-right-row pair); a left join has at
least that many rows, and exactly `len(left)` rows when no left key
matches any right key. -/
theorem c5_join_row_counts (onCol : String) (L R : List Row) :
    (joinRows onCol "inner" L R).length =
      (L.map (fun l =>
        (R.filter (fun r => pyEqB (joinKey onCol r) (joinKey onCol l))).length)).sum ∧
    (L.map (fun l =>
        (R.filter (fun r => pyEqB (joinKey onCol r) (joinKey onCol l))).length)).sum ≤
      (joinRows onCol "left" L R).length ∧
    ((∀ l ∈ L, R.filter (fun r => pyEqB (joinKey onCol r) (joinKey onCol l)) = []) →
      (joinRows onCol "left" L R).length = L.length) := by
  refine ⟨?_, ?_, ?_⟩
  · unfold joinRows
    simp only [List.append_nil, if_neg (by decide : ¬("inner" = "right" ∨ "inner" = "outer"))]
    rw [List.length_flatMap]
    congr 1
    apply List.map_congr_left
    intro l _
    simp only [Function.comp_apply]
    rw [joinExpand_length_inner, idxLookup_rightIndexOf]
  · unfold joinRows
    simp only [List.append_nil, if_neg (by decide : ¬("left" = "right" ∨ "left" = "outer"))]
    rw [List.length_flatMap]
    have hle : ∀ l ∈ L,
        (R.filter (fun r => pyEqB (joinKey onCol r) (joinKey onCol l))).length ≤
          (List.length ∘ joinExpand onCol "left" (rightIndexOf onCol R)) l := by
      intro l _
      simp only [Function.comp_apply]
      exact joinExpand_length_left_ge onCol R l
    exact List.sum_le_sum hle
  · intro hall
    unfold joinRows
    simp only [List.append_nil, if_neg (by decide : ¬("left" = "right" ∨ "left" = "outer"))]
    rw [List.length_flatMap]
    have hone : ∀ l ∈ L, (List.length ∘ joinExpand onCol "left" (rightIndexOf onCol R)) l = 1 := by
      intro l hl
      simp only [Function.comp_apply]
      exact joinExpand_length_left_unmatched onCol R l (hall l hl)
    calc (L.map (List.length ∘ joinExpand onCol "left" (rightIndexOf onCol R))).sum
        = (L.map (fun _ => 1)).sum := by
          apply congrArg
          exact List.map_congr_left hone
      _ = L.length := sum_map_ones L

theorem c5_witness :
    (joinRows "k" "inner" [[("k", Value.int 1)]] [[("k", Value.int 2)]]).length =
      ([[("k", Value.int 1)]].map (fun l =>
        ([[("k", Value.int 2)]].filter
          (fun r => pyEqB (joinKey "k" r) (joinKey "k" l))).length)).sum ∧
    (joinRows "k" "left" [[("k", Value.int 1)]] [[("k", Value.int 2)]]).length =
      [[("k", Value.int 1)]].length :=
  ⟨(c5_join_row_counts "k" [[("k", Value.int 1)]] [[("k", Value.int 2)]]).1,
   (c5_join_row_counts "k" [[("k", Value.int 1)]] [[("k", Value.int 2)]]).2.2 (by decide)⟩

/-- C9: a left row lacking the join column is keyed by the empty string:
its matches in the right index are exactly the right rows whose
join-column value is the empty string or absent, and (when that set is
nonempty) the row is merged with exactly those rows rather than treated
as unmatched. -/
theorem c9_join_missing_key_matches_empty (onCol how : String) (R : List Row) (l : Row)
    (hmiss : dlookup l onCol = Option.none) :
    idxLookup (rightIndexOf onCol R) (joinKey onCol l) =
      R.filter (fun r => decide (dlookup r onCol = some (Value.str "")) ||
        decide (dlookup r onCol = Option.none)) ∧
    (R.filter (fun r => decide (dlookup r onCol = some (Value.str "")) ||
        decide (dlookup r onCol = Option.none)) ≠ [] →
      joinExpand onCol how (rightIndexOf onCol R) l =
        (R.filter (fun r => decide (dlookup r onCol = some (Value.str "")) ||
          decide (dlookup r onCol = Option.none))).map (fun r => mergeRow onCol l r)) := by
  have hkey : joinKey onCol l = Value.str "" := by
    simp [joinKey, pyGet, hmiss]
  have hfc : ∀ r : Row, pyEqB (joinKey onCol r) (Value.str "") =
      (decide (dlookup r onCol = some (Value.str "")) ||
        decide (dlookup r onCol = Option.none)) := by
    intro r
    unfold joinKey pyGet
    cases hv : dlookup r onCol with
    | none => simp [pyEqB, keyCanon]
    | some v =>
      cases v with
      | str s =>
        by_cases hs : s = ""
        · simp [hs, pyEqB, keyCanon]
        · simp [pyEqB, keyCanon, hs]
      | int n => simp [pyEqB, keyCanon]
      | float q => simp [pyEqB, keyCanon]
      | bool b => simp [pyEqB, keyCanon]
      | null => simp [pyEqB, keyCanon]
  have hmain : idxLookup (rightIndexOf onCol R) (joinKey onCol l) =
      R.filter (fun r => decide (dlookup r onCol = some (Value.str "")) ||
        decide (dlookup r onCol = Option.none)) := by
    rw [idxLookup_rightIndexOf, hkey]
    exact List.filter_congr (fun r _ => hfc r)
  refine ⟨hmain, fun hne => ?_⟩
  unfold joinExpand
  rw [hmain]
  have : (R.filter (fun r => decide (dlookup r onCol = some (Value.str "")) ||
      decide (dlookup r onCol = Option.none))).isEmpty = false := by
    cases hq : (R.filter _).isEmpty with
    | false => rfl
    | true => exact absurd (List.isEmpty_iff.mp hq) hne
  simp [this]

theorem c9_witness :
    idxLookup (rightIndexOf "k" [[("k", Value.str "")], [("k", Value.str "a")], [("z", Value.int 1)]])
        (joinKey "k" [("x", Value.int 5)]) =
      [[("k", Value.str "")], [("z", Value.int 1)]] ∧
    joinExpand "k" "inner"
        (rightIndexOf "k" [[("k", Value.str "")], [("k", Value.str "a")], [("z", Value.int 1)]])
        [("x", Value.int 5)] =
      [[("k", Value.str "")], [("z", Value.int 1)]].map
        (fun r => mergeRow "k" [("x", Value.int 5)] r) := by
  have h := c9_join_missing_key_matches_empty "k" "inner"
    [[("k", Value.str "")], [("k", Value.str "a")], [("z", Value.int 1)]]
    [("x", Value.int 5)] (by decide)
  constructor
  · rw [h.1]
    decide
  · rw [h.2 (by decide)]
    decide

/-! Rename: C6. -/

theorem dlookup_swap_of_lookup {m : List (String × String)} {k v : String}
    (hmv : (m.map Prod.snd).Nodup) (h : dlookup m k = some v) :
    dlookup (m.map Prod.swap) v = some k := by
  induction m with
  | nil => simp [dlookup] at h
  | cons kv t ih =>
    simp only [List.map_cons, List.nodup_cons] at hmv
    by_cases hk : kv.1 = k
    · simp only [dlookup, if_pos hk, Option.some.injEq] at h
      show dlookup ((kv.2, kv.1) :: t.map Prod.swap) v = some k
      simp [dlookup, h, hk]
    · simp only [dlookup, if_neg hk] at h
      have hmem : v ∈ t.map Prod.snd :=
        List.mem_map.mpr ⟨(k, v), dlookup_mem h, rfl⟩
      have hne : kv.2 ≠ v := fun he => hmv.1 (he ▸ hmem)
      show dlookup ((kv.2, kv.1) :: t.map Prod.swap) v = some k
      simp [dlookup, hne, ih hmv.2 h]

theorem dlookup_swap_of_not_mem_snd {m : List (String × String)} {k : String}
    (h : k ∉ m.map Prod.snd) : dlookup (m.map Prod.swap) k = Option.none := by
  apply dlookup_eq_none_of_not_mem
  simpa [List.map_map, Function.comp] using h

theorem renameRow_eq_map (m : List (String × String)) (r : Row)
    (h : (r.map (fun kv => (dlookup m kv.1).getD kv.1)).Nodup) :
    renameRow m r = r.map (fun kv => ((dlookup m kv.1).getD kv.1, kv.2)) := by
  suffices hgen : ∀ (r2 : Row) (nr : Row),
      (nr.map Prod.fst ++ r2.map (fun kv => (dlookup m kv.1).getD kv.1)).Nodup →
      r2.foldl (fun nr kv => dset nr ((dlookup m kv.1).getD kv.1) kv.2) nr =
        nr ++ r2.map (fun kv => ((dlookup m kv.1).getD kv.1, kv.2)) by
    have := hgen r [] (by simpa using h)
    simpa [renameRow] using this
  intro r2
  induction r2 with
  | nil => intro nr _; simp
  | cons kv t ih =>
    intro nr hn
    simp only [List.foldl_cons]
    have hfresh : dlookup nr ((dlookup m kv.1).getD kv.1) = Option.none := by
      apply dlookup_eq_none_of_not_mem
      intro hmem
      rw [List.map_cons, List.nodup_append] at hn
      exact hn.2.2 hmem (List.mem_cons_self _ _)
    rw [dset_eq_append _ hfresh]
    rw [ih (nr ++ [((dlookup m kv.1).getD kv.1, kv.2)]) ?_]
    · simp
    · simp only [List.map_append, List.map_cons] at hn ⊢
      simpa [List.append_assoc] using hn

theorem dlookup_append {κ α : Type} [DecidableEq κ] (A B : List (κ × α)) (c : κ) :
    dlookup (A ++ B) c = (dlookup A c <|> dlookup B c) := by
  induction A with
  | nil => simp [dlookup]
  | cons kv t ih =>
    by_cases h : kv.1 = c
    · simp [dlookup, h]
    · simp [dlookup, h, ih]

/-- C6 counterexample: the injective mapping `a -> b` on the row
`[a: 1, b: 2]` collides with the untouched key `b`; the later-iterated
key wins, the value of `a` is lost, and applying the inverse mapping
`b -> a` does not restore the row. -/
theorem c6_counterexample :
    renameRow [("a", "b")] [("a", Value.int 1), ("b", Value.int 2)] = [("b", Value.int 2)] ∧
    renameRow [("b", "a")]
        (renameRow [("a", "b")] [("a", Value.int 1), ("b", Value.int 2)]) ≠
      [("a", Value.int 1), ("b", Value.int 2)] := by
  constructor
  · decide
  · decide

/-- C6 (amended): the rename round-trip law holds for a row with unique
keys and an injective mapping provided no mapped target collides with a
row key that the mapping leaves unchanged; and in general the value
observed at a column after a rename is the value of the last-iterated
row field mapped to it (colliding targets: the later key wins), i.e.
lookup scans the renamed fields in reversed iteration order. -/
theorem c6_rename_round_trip (m : List (String × String)) (r : Row)
    (hr : (r.map Prod.fst).Nodup)
    (hmv : (m.map Prod.snd).Nodup)
    (hd : ∀ k ∈ r.map Prod.fst, dlookup m k = Option.none → k ∉ m.map Prod.snd) :
    renameRow (m.map Prod.swap) (renameRow m r) = r ∧
    (∀ (m2 : List (String × String)) (r2 : Row) (c : String),
      dlookup (renameRow m2 r2) c =
        dlookup ((r2.map (fun kv => ((dlookup m2 kv.1).getD kv.1, kv.2))).reverse) c) := by
  have hgf : ∀ k ∈ r.map Prod.fst,
      (dlookup (m.map Prod.swap) ((dlookup m k).getD k)).getD ((dlookup m k).getD k) = k := by
    intro k hk
    cases hlk : dlookup m k with
    | some v =>
      simp [dlookup_swap_of_lookup hmv hlk]
    | none =>
      have hnv : k ∉ m.map Prod.snd := hd k hk hlk
      simp [dlookup_swap_of_not_mem_snd hnv]
  have hmapped : (r.map (fun kv => (dlookup m kv.1).getD kv.1)).map
      (fun k => (dlookup (m.map Prod.swap) k).getD k) = r.map Prod.fst := by
    rw [List.map_map]
    apply List.map_congr_left
    intro kv hkv
    exact hgf kv.1 (List.mem_map.mpr ⟨kv, hkv, rfl⟩)
  have hnodup_f : (r.map (fun kv => (dlookup m kv.1).getD kv.1)).Nodup := by
    apply List.Nodup.of_map (fun k => (dlookup (m.map Prod.swap) k).getD k)
    rw [hmapped]
    exact hr
  constructor
  · rw [renameRow_eq_map m r hnodup_f]
    rw [renameRow_eq_map (m.map Prod.swap) _ ?_]
    · rw [List.map_map]
      have : ∀ kv ∈ r,
          ((fun kv => ((dlookup (m.map Prod.swap) kv.1).getD kv.1, kv.2)) ∘
            fun kv => ((dlookup m kv.1).getD kv.1, kv.2)) kv = kv := by
        intro kv hkv
        simp only [Function.comp_apply]
        have := hgf kv.1 (List.mem_map.mpr ⟨kv, hkv, rfl⟩)
        rw [this]
      rw [List.map_congr_left this]
      simp
    · rw [List.map_map]
      have : (r.map ((fun kv => (dlookup (m.map Prod.swap) kv.1).getD kv.1) ∘
          fun kv => ((dlookup m kv.1).getD kv.1, kv.2))) = r.map Prod.fst := by
        rw [← hmapped, List.map_map]
        rfl
      rw [this]
      exact hr
  · intro m2 r2 c
    suffices hgen : ∀ (r3 : Row) (nr : Row),
        dlookup (r3.foldl (fun nr kv => dset nr ((dlookup m2 kv.1).getD kv.1) kv.2) nr) c =
          (dlookup ((r3.map (fun kv => ((dlookup m2 kv.1).getD kv.1, kv.2))).reverse) c <|>
            dlookup nr c) by
      have := hgen r2 []
      simpa [renameRow, dlookup] using this
    intro r3
    induction r3 with
    | nil => intro nr; simp [dlookup]
    | cons kv t ih =>
      intro nr
      simp only [List.foldl_cons, List.map_cons, List.reverse_cons]
      rw [ih, dlookup_append]
      have hset : dlookup (dset nr ((dlookup m2 kv.1).getD kv.1) kv.2) c =
          (dlookup [(((dlookup m2 kv.1).getD kv.1 : String), kv.2)] c <|> dlookup nr c) := by
        by_cases hc : (dlookup m2 kv.1).getD kv.1 = c
        · rw [hc, dlookup_dset_self]
          simp [dlookup]
        · rw [dlookup_dset_ne _ _ _ _ (fun he => hc he.symm)]
          simp [dlookup, hc]
      rw [hset]
      cases dlookup ((t.map (fun kv => ((dlookup m2 kv.1).getD kv.1, kv.2))).reverse) c with
      | none => simp
      | some v => simp

theorem c6_witness :
    renameRow ([("a", "x"), ("b", "y")].map Prod.swap)
        (renameRow [("a", "x"), ("b", "y")] [("a", Value.int 1), ("b", Value.int 2)]) =
      [("a", Value.int 1), ("b", Value.int 2)] :=
  (c6_rename_round_trip [("a", "x"), ("b", "y")] [("a", Value.int 1), ("b", Value.int 2)]
    (by decide) (by decide) (by decide)).1

/-! GroupBy: C3. -/

theorem pyEqKey_iff (a b : List Value) :
    pyEqKey a b = true ↔ a.map keyCanon = b.map keyCanon := by
  simp [pyEqKey]

theorem insGroup_canonKeys (k : List Value) (r : Row) (acc : List (List Value × List Row)) :
    (insGroup k r acc).map (fun g => g.1.map keyCanon) =
      if k.map keyCanon ∈ acc.map (fun g => g.1.map keyCanon) then
        acc.map (fun g => g.1.map keyCanon)
      else acc.map (fun g => g.1.map keyCanon) ++ [k.map keyCanon] := by
  induction acc with
  | nil => simp [insGroup]
  | cons g t ih =>
    by_cases hg : pyEqKey g.1 k = true
    · have hck : g.1.map keyCanon = k.map keyCanon := (pyEqKey_iff _ _).mp hg
      simp [insGroup, hg, hck]
    · have hne : ¬ g.1.map keyCanon = k.map keyCanon := fun he =>
        hg ((pyEqKey_iff _ _).mpr he)
      by_cases hm : (k.map keyCanon) ∈ t.map (fun g => g.1.map keyCanon)
      · simp [insGroup, hg, ih, hm, Ne.symm hne]
      · simp [insGroup, hg, ih, hm, Ne.symm hne]

theorem groupsOf_nodup_toFinset (cols : List String) (rows : List Row) :
    ∀ acc : List (List Value × List Row),
      ((acc.map (fun g => g.1.map keyCanon)).Nodup) →
      (((rows.foldl (fun acc r => insGroup (keyTuple cols r) r acc) acc).map
          (fun g => g.1.map keyCanon)).Nodup ∧
        ((rows.foldl (fun acc r => insGroup (keyTuple cols r) r acc) acc).map
          (fun g => g.1.map keyCanon)).toFinset =
          (acc.map (fun g => g.1.map keyCanon)).toFinset ∪
            (rows.map (fun r => (keyTuple cols r).map keyCanon)).toFinset) := by
  induction rows with
  | nil => intro acc h; exact ⟨h, by simp⟩
  | cons r rows ih =>
    intro acc h
    simp only [List.foldl_cons]
    by_cases hm : ((keyTuple cols r).map keyCanon) ∈ acc.map (fun g => g.1.map keyCanon)
    · have hck : (insGroup (keyTuple cols r) r acc).map (fun g => g.1.map keyCanon) =
          acc.map (fun g => g.1.map keyCanon) := by
        rw [insGroup_canonKeys, if_pos hm]
      obtain ⟨h1, h2⟩ := ih (insGroup (keyTuple cols r) r acc) (by rw [hck]; exact h)
      refine ⟨h1, ?_⟩
      rw [h2, hck, List.map_cons, List.toFinset_cons, Finset.union_insert]
      rw [Finset.insert_eq_self.mpr]
      exact Finset.mem_union_left _ (List.mem_toFinset.mpr hm)
    · have hck : (insGroup (keyTuple cols r) r acc).map (fun g => g.1.map keyCanon) =
          acc.map (fun g => g.1.map keyCanon) ++ [(keyTuple cols r).map keyCanon] := by
        rw [insGroup_canonKeys, if_neg hm]
      have hnd : ((insGroup (keyTuple cols r) r acc).map (fun g => g.1.map keyCanon)).Nodup := by
        rw [hck, List.nodup_append]
        exact ⟨h, List.nodup_singleton _, by
          intro a ha hb
          simp only [List.mem_singleton] at hb
          exact hm (hb ▸ ha)⟩
      obtain ⟨h1, h2⟩ := ih (insGroup (keyTuple cols r) r acc) hnd
      refine ⟨h1, ?_⟩
      rw [h2, hck, List.toFinset_append, List.map_cons, List.toFinset_cons, Finset.union_insert]
      simp only [List.toFinset_cons, List.toFinset_nil]
      rw [Finset.insert_eq, Finset.insert_eq]
      rw [Finset.union_assoc, Finset.union_comm {(keyTuple cols r).map keyCanon} _]
      simp [Finset.union_assoc, Finset.union_comm]

theorem groupsOf_length (cols : List String) (rows : List Row) :
    (groupsOf cols rows).length =
      ((rows.map (fun r => (keyTuple cols r).map keyCanon)).toFinset).card := by
  obtain ⟨h1, h2⟩ := groupsOf_nodup_toFinset cols rows [] (by simp)
  have hlen : (groupsOf cols rows).length =
      ((groupsOf cols rows).map (fun g => g.1.map keyCanon)).length := by simp
  rw [hlen]
  unfold groupsOf
  rw [← List.toFinset_card_of_nodup h1, h2]
  simp

theorem insGroup_filter_sum (p : Row → Bool) (k : List Value) (r : Row)
    (acc : List (List Value × List Row)) :
    ((insGroup k r acc).map (fun g => (g.2.filter p).length)).sum =
      (acc.map (fun g => (g.2.filter p).length)).sum + if p r then 1 else 0 := by
  induction acc with
  | nil =>
    by_cases hp : p r = true
    · simp [insGroup, List.filter, hp]
    · simp only [Bool.not_eq_true] at hp
      simp [insGroup, List.filter, hp]
  | cons g t ih =>
    by_cases hg : pyEqKey g.1 k = true
    · by_cases hp : p r = true
      · simp [insGroup, hg, List.filter_append, List.filter, hp]
        omega
      · simp only [Bool.not_eq_true] at hp
        simp [insGroup, hg, List.filter_append, List.filter, hp]
    · simp [insGroup, hg, ih]
      omega

theorem groupsOf_filter_sum (cols : List String) (p : Row → Bool) (rows : List Row) :
    ∀ acc : List (List Value × List Row),
      ((rows.foldl (fun acc r => insGroup (keyTuple cols r) r acc) acc).map
          (fun g => (g.2.filter p).length)).sum =
        (acc.map (fun g => (g.2.filter p).length)).sum + (rows.filter p).length := by
  induction rows with
  | nil => intro acc; simp
  | cons r rows ih =>
    intro acc
    simp only [List.foldl_cons]
    rw [ih, insGroup_filter_sum]
    by_cases hp : p r = true
    · simp [List.filter_cons, hp]
      omega
    · simp only [Bool.not_eq_true] at hp
      simp [List.filter_cons, hp]

theorem aggValues_length (c : String) (rs : List Row) :
    (aggValues c rs).length = (rs.filter (fun r => hasNonNull r c)).length := by
  induction rs with
  | nil => rfl
  | cons r t ih =>
    unfold aggValues at ih ⊢
    simp only [List.filterMap_cons, List.filter_cons]
    cases hv : dlookup r c with
    | none => simp [hasNonNull, hv, ih]
    | some v =>
      by_cases hn : v = Value.null
      · simp [hasNonNull, hv, hn, ih]
      · simp [hasNonNull, hv, hn, ih]

theorem groupRow_count (cols : List String) (c : String) (g : List Value × List Row) :
    groupRow cols [(c, "count")] g =
      Except.ok (dset ((cols.zip g.1).foldl (fun nr cv => dset nr cv.1 cv.2) []) c
        (Value.int (aggValues c g.2).length)) := rfl

theorem sum_map_intCast {α : Type} (l : List α) (f : α → Nat) :
    (l.map (fun x => (f x : Int))).sum = ((l.map f).sum : Int) := by
  induction l with
  | nil => rfl
  | cons x t ih => simp [ih]

/-- C3 counterexample: grouping `[{"a": 1}]` by `a` with a `count`
aggregation over the absent column `x` yields one output row with count
0, so the counts sum to 0, not to `len(T) = 1`: `count` counts only rows
whose aggregation column is present and non-null. -/
theorem c3_counterexample :
    groupByTransform ⟨some "t", ["a"], [("x", "count")]⟩ [("t", [[("a", Value.int 1)]])] =
      Except.ok [("t", [[("a", Value.int 1), ("x", Value.int 0)]])] ∧
    ([[("a", Value.int 1), ("x", Value.int 0)]].map (fun r => getIntAt r "x")).sum ≠
      (([[("a", Value.int 1)]] : Table).length : Int) := by
  constructor
  · decide
  · decide

/-- C3 (amended): for every table and nonempty grouping column list,
GroupBy emits exactly one output row per distinct grouping-key tuple
(the values at the grouping columns, a missing column read as the empty
string, compared with Python `==`), and with a `count` aggregation on
column `c` the count values over all output rows sum to the number of
input rows whose value at `c` is present and non-`None` (which equals
`len(T)` only when every row has such a value). -/
theorem c3_groupby_row_count_and_count_sum (s : String) (cols : List String) (c : String)
    (data : NTS) (rows : List Row)
    (hs : s ≠ "") (hcols : cols ≠ [])
    (hlook : dlookup data s = some rows) :
    ∃ out, groupByTransform ⟨some s, cols, [(c, "count")]⟩ data = Except.ok (dset data s out) ∧
      out.length = ((rows.map (fun r => (keyTuple cols r).map keyCanon)).toFinset).card ∧
      (out.map (fun r2 => getIntAt r2 c)).sum =
        ((rows.filter (fun r => hasNonNull r c)).length : Int) := by
  refine ⟨(groupsOf cols rows).map (fun g =>
    dset ((cols.zip g.1).foldl (fun nr cv => dset nr cv.1 cv.2) []) c
      (Value.int (aggValues c g.2).length)), ?_, ?_, ?_⟩
  · have hmap := mapM_ok_of_forall (groupRow cols [(c, "count")])
      (fun g => dset ((cols.zip g.1).foldl (fun nr cv => dset nr cv.1 cv.2) []) c
        (Value.int (aggValues c g.2).length))
      (groupsOf cols rows) (fun g _ => groupRow_count cols c g)
    have hbody : groupByTransform ⟨some s, cols, [(c, "count")]⟩ data = (do
        let out ← (groupsOf cols rows).mapM (groupRow cols [(c, "count")])
        pure (dset data s out)) := by
      unfold groupByTransform
      rw [if_neg]
      · simp only [Option.getD_some]
        rw [hlook]
      · simp [truthyS, String.isEmpty_iff, hs, hcols]
    rw [hbody, hmap]
    rfl
  · rw [List.length_map]
    exact groupsOf_length cols rows
  · rw [List.map_map]
    have hpt : ∀ g ∈ groupsOf cols rows,
        ((fun r2 => getIntAt r2 c) ∘ fun g =>
          dset ((cols.zip g.1).foldl (fun nr cv => dset nr cv.1 cv.2) []) c
            (Value.int (aggValues c g.2).length)) g =
          (((g.2.filter (fun r => hasNonNull r c)).length : Nat) : Int) := by
      intro g _
      simp only [Function.comp_apply, getIntAt, dlookup_dset_self, aggValues_length]
    rw [List.map_congr_left hpt]
    rw [sum_map_intCast (groupsOf cols rows) (fun g => (g.2.filter (fun r => hasNonNull r c)).length)]
    have := groupsOf_filter_sum cols (fun r => hasNonNull r c) rows []
    unfold groupsOf
    rw [this]
    simp

theorem c3_witness :
    ∃ out, groupByTransform ⟨some "t", ["a"], [("x", "count")]⟩
        [("t", [[("a", Value.int 1), ("x", Value.int 5)], [("a", Value.int 1)]])] =
      Except.ok (dset [("t", [[("a", Value.int 1), ("x", Value.int 5)], [("a", Value.int 1)]])] "t" out) ∧
      out.length = (([[("a", Value.int 1), ("x", Value.int 5)], [("a", Value.int 1)]].map
        (fun r => (keyTuple ["a"] r).map keyCanon)).toFinset).card ∧
      (out.map (fun r2 => getIntAt r2 "x")).sum =
        (([[("a", Value.int 1), ("x", Value.int 5)], [("a", Value.int 1)]].filter
          (fun r => hasNonNull r "x")).length : Int) :=
  c3_groupby_row_count_and_count_sum "t" ["a"] "x"
    [("t", [[("a", Value.int 1), ("x", Value.int 5)], [("a", Value.int 1)]])]
    [[("a", Value.int 1), ("x", Value.int 5)], [("a", Value.int 1)]]
    (by decide) (by decide) (by decide)

/-! Sort: C8. -/

theorem value_toNum_keyCanon {a : Value} {x : ℚ} (h : a.toNum = some x) :
    keyCanon a = Value.float x := by
  cases a <;> simp_all [Value.toNum, keyCanon]

theorem pyLeB_num {a b : Value} {x y : ℚ} (ha : a.toNum = some x) (hb : b.toNum = some y) :
    pyLeB a b = some (decide (x ≤ y)) := by
  unfold pyLeB
  rw [ha, hb]

theorem pyLeB_shape {a b : Value} (h : (pyLeB a b).isSome = true) :
    (∃ x y, a.toNum = some x ∧ b.toNum = some y) ∨
      (∃ s t, a = Value.str s ∧ b = Value.str t) := by
  cases ha : a.toNum with
  | some x =>
    cases hb : b.toNum with
    | some y => exact Or.inl ⟨x, y, rfl, rfl⟩
    | none =>
      exfalso
      cases a <;> cases b <;> simp_all [pyLeB, Value.toNum]
  | none =>
    cases a <;> cases b <;> simp_all [pyLeB, Value.toNum]

theorem pyLeB_some_false {v w : Value} (h : pyLeB v w = some false) : pyLeB w v = some true := by
  have hs : (pyLeB v w).isSome = true := by rw [h]; rfl
  rcases pyLeB_shape hs with ⟨x, y, ha, hb⟩ | ⟨s, t, ha, hb⟩
  · rw [pyLeB_num ha hb] at h
    rw [pyLeB_num hb ha]
    simp only [Option.some.injEq, decide_eq_false_iff_not, not_le] at h
    simp [le_of_lt h]
  · subst ha; subst hb
    simp only [pyLeB, Value.toNum, Option.some.injEq] at h ⊢
    simp only [Bool.not_eq_false'] at h
    simp only [Bool.not_eq_true']
    rw [decide_eq_true_eq] at h
    rw [decide_eq_false_iff_not]
    exact lt_asymm h

theorem pyLeB_transitive {a b c : Value} (h1 : pyLeB a b = some true) (h2 : pyLeB b c = some true) :
    pyLeB a c = some true := by
  have hs1 : (pyLeB a b).isSome = true := by rw [h1]; rfl
  have hs2 : (pyLeB b c).isSome = true := by rw [h2]; rfl
  rcases pyLeB_shape hs1 with ⟨x, y, ha, hb⟩ | ⟨s, t, ha, hb⟩
  · rcases pyLeB_shape hs2 with ⟨y2, z, hb2, hc⟩ | ⟨t2, u, hb2, hc⟩
    · rw [hb] at hb2
      injection hb2 with hyy
      subst hyy
      rw [pyLeB_num ha hb] at h1
      rw [pyLeB_num hb hc] at h2
      rw [pyLeB_num ha hc]
      simp only [Option.some.injEq, decide_eq_true_eq] at h1 h2 ⊢
      exact le_trans h1 h2
    · subst hb2
      simp [Value.toNum] at hb
  · rcases pyLeB_shape hs2 with ⟨y2, z, hb2, hc⟩ | ⟨t2, u, hb2, hc⟩
    · subst hb
      simp [Value.toNum] at hb2
    · subst ha
      subst hb
      subst hc
      injection hb2 with ht
      subst ht
      simp only [pyLeB, Value.toNum] at h1 h2 ⊢
      simp only [Option.some.injEq, Bool.not_eq_true', decide_eq_false_iff_not] at h1 h2 ⊢
      intro hu
      rcases lt_trichotomy s t with hst | hst | hst
      · exact h2 (hu.trans hst)
      · exact h2 (hst ▸ hu)
      · exact h1 hst

theorem pyLeB_antisymmetric {a b : Value} (h1 : pyLeB a b = some true)
    (h2 : pyLeB b a = some true) : pyEqB a b = true := by
  have hs1 : (pyLeB a b).isSome = true := by rw [h1]; rfl
  rcases pyLeB_shape hs1 with ⟨x, y, ha, hb⟩ | ⟨s, t, ha, hb⟩
  · rw [pyLeB_num ha hb] at h1
    rw [pyLeB_num hb ha] at h2
    simp only [Option.some.injEq, decide_eq_true_eq] at h1 h2
    have hxy : x = y := le_antisymm h1 h2
    simp [pyEqB, value_toNum_keyCanon ha, value_toNum_keyCanon hb, hxy]
  · subst ha
    subst hb
    simp only [pyLeB, Value.toNum, Option.some.injEq, Bool.not_eq_true',
      decide_eq_false_iff_not] at h1 h2
    have hst : s = t := le_antisymm (le_of_not_lt h1) (le_of_not_lt h2)
    simp [pyEqB, keyCanon, hst]

theorem comparableB_symm (a b : Value) : comparableB a b = comparableB b a := by
  cases a <;> cases b <;> simp [comparableB, pyLeB, Value.toNum]

theorem rowLe_some {col : String} {a b : Row}
    (hc : comparableB (sortKey col a) (sortKey col b) = true) :
    rowLe col false a b = true ↔ pyLeB (sortKey col a) (sortKey col b) = some true := by
  unfold rowLe
  simp only [if_neg (by decide : ¬(false = true))]
  unfold comparableB at hc
  cases hp : pyLeB (sortKey col a) (sortKey col b) with
  | none => rw [hp] at hc; simp at hc
  | some v =>
    cases v with
    | true => simp
    | false => simp

theorem rowLe_total (col : String) (desc : Bool) (a b : Row) :
    rowLe col desc a b = true ∨ rowLe col desc b a = true := by
  have key : ∀ v w : Value, (pyLeB v w).getD true = true ∨ (pyLeB w v).getD true = true := by
    intro v w
    cases hp : pyLeB v w with
    | none => simp
    | some x =>
      cases x with
      | true => simp
      | false =>
        right
        rw [pyLeB_some_false hp]
        rfl
  unfold rowLe
  cases desc with
  | false =>
    simpa using key (sortKey col a) (sortKey col b)
  | true =>
    simpa using key (sortKey col b) (sortKey col a)

theorem rowLe_flip (col : String) : rowLe col true = fun a b => rowLe col false b a := by
  funext a b
  simp [rowLe]

theorem mem_insD {le : Row → Row → Bool} {x y : Row} {l : List Row} :
    y ∈ insD le x l ↔ y = x ∨ y ∈ l := by
  induction l with
  | nil => simp [insD]
  | cons z zs ih =>
    by_cases h : le z x = true
    · simp only [insD, if_pos h, List.mem_cons, ih]
      tauto
    · simp only [insD, if_neg h, List.mem_cons]

theorem insD_perm (le : Row → Row → Bool) (x : Row) (l : List Row) :
    (insD le x l).Perm (x :: l) := by
  induction l with
  | nil => simp [insD]
  | cons y ys ih =>
    by_cases h : le y x = true
    · simp only [insD, if_pos h]
      exact (List.Perm.cons y ih).trans (List.Perm.swap x y ys)
    · simp [insD, h]

theorem insSort_perm (le : Row → Row → Bool) (l : List Row) : (insSort le l).Perm l := by
  suffices h : ∀ acc : List Row,
      (l.foldl (fun a x => insD le x a) acc).Perm (acc ++ l) by
    simpa [insSort] using h []
  induction l with
  | nil => intro acc; simp
  | cons x t ih =>
    intro acc
    simp only [List.foldl_cons]
    refine (ih _).trans (((insD_perm le x acc).append_right t).trans ?_)
    exact List.perm_middle.symm

theorem insD_pairwise (le : Row → Row → Bool) (x : Row) (acc : List Row)
    (hs : acc.Pairwise (fun a b => le a b = true))
    (htot : ∀ y ∈ acc, le y x = true ∨ le x y = true)
    (htrans : ∀ y ∈ acc, ∀ z ∈ acc, le x y = true → le y z = true → le x z = true) :
    (insD le x acc).Pairwise (fun a b => le a b = true) := by
  induction acc with
  | nil => simp [insD]
  | cons y ys ih =>
    rw [List.pairwise_cons] at hs
    by_cases h : le y x = true
    · simp only [insD, if_pos h]
      rw [List.pairwise_cons]
      constructor
      · intro z hz
        rcases mem_insD.mp hz with rfl | hzys
        · exact h
        · exact hs.1 z hzys
      · exact ih hs.2 (fun z hz => htot z (List.mem_cons_of_mem _ hz))
          (fun z hz w hw h1 h2 =>
            htrans z (List.mem_cons_of_mem _ hz) w (List.mem_cons_of_mem _ hw) h1 h2)
    · simp only [insD, if_neg h]
      have hxy : le x y = true := by
        rcases htot y (List.mem_cons_self _ _) with h1 | h2
        · exact absurd h1 h
        · exact h2
      rw [List.pairwise_cons]
      refine ⟨?_, List.pairwise_cons.mpr hs⟩
      intro z hz
      rcases List.mem_cons.mp hz with rfl | hzys
      · exact hxy
      · exact htrans y (List.mem_cons_self _ _) z (List.mem_cons_of_mem _ hzys) hxy
          (hs.1 z hzys)

theorem insSort_go_pairwise (le : Row → Row → Bool) (S : List Row)
    (htot : ∀ a ∈ S, ∀ b ∈ S, le a b = true ∨ le b a = true)
    (htrans : ∀ a ∈ S, ∀ b ∈ S, ∀ c ∈ S, le a b = true → le b c = true → le a c = true) :
    ∀ (l acc : List Row), (∀ x ∈ l, x ∈ S) → (∀ x ∈ acc, x ∈ S) →
      acc.Pairwise (fun a b => le a b = true) →
      (l.foldl (fun a x => insD le x a) acc).Pairwise (fun a b => le a b = true) := by
  intro l
  induction l with
  | nil => intro acc _ _ h; simpa using h
  | cons x t ih =>
    intro acc hl hacc hp
    simp only [List.foldl_cons]
    apply ih
    · intro z hz
      exact hl z (List.mem_cons_of_mem _ hz)
    · intro z hz
      rcases mem_insD.mp hz with rfl | hz2
      · exact hl z (List.mem_cons_self _ _)
      · exact hacc z hz2
    · apply insD_pairwise le x acc hp
      · intro y hy
        exact htot y (hacc y hy) x (hl x (List.mem_cons_self _ _))
      · intro y hy z hz h1 h2
        exact htrans x (hl x (List.mem_cons_self _ _)) y (hacc y hy) z (hacc z hz) h1 h2

theorem insSort_pairwise (le : Row → Row → Bool) (l : List Row)
    (htot : ∀ a ∈ l, ∀ b ∈ l, le a b = true ∨ le b a = true)
    (htrans : ∀ a ∈ l, ∀ b ∈ l, ∀ c ∈ l, le a b = true → le b c = true → le a c = true) :
    (insSort le l).Pairwise (fun a b => le a b = true) :=
  insSort_go_pairwise le l htot htrans l [] (fun _ hx => hx) (fun _ hx => absurd hx
    (List.not_mem_nil _)) List.Pairwise.nil

theorem insD_cons_of_not_le {le : Row → Row → Bool} {x y : Row} {l : List Row}
    (h : le y x = false) : insD le x (y :: l) = x :: y :: l := by
  simp [insD, h]

theorem insSort_rev_go (le : Row → Row → Bool) :
    ∀ (L P : List Row),
      (∀ x ∈ L, ∀ y ∈ P, le y x = true ∧ le x y = false) →
      L.Pairwise (fun a b => le a b = true ∧ le b a = false) →
      L.foldl (fun a x => insD (fun a b => le b a) x a) P.reverse = (P ++ L).reverse := by
  intro L
  induction L with
  | nil => intro P _ _; simp
  | cons x t ih =>
    intro P hcross hpw
    simp only [List.foldl_cons]
    have hstep : insD (fun a b => le b a) x P.reverse = (P ++ [x]).reverse := by
      cases hP : P.reverse with
      | nil =>
        have hPnil : P = [] := by
          have := congrArg List.reverse hP
          simpa using this
        subst hPnil
        simp [insD]
      | cons y ys =>
        have hy : y ∈ P := by
          have : y ∈ P.reverse := by
            rw [hP]
            exact List.mem_cons_self _ _
          simpa using this
        have hle : le x y = false := (hcross x (List.mem_cons_self _ _) y hy).2
        rw [@insD_cons_of_not_le (fun a b => le b a) x y ys hle]
        rw [List.reverse_append]
        simp [hP]
    rw [hstep]
    have hgoal := ih (P ++ [x]) ?_ (List.Pairwise.sublist (List.sublist_cons_self x t) hpw)
    · rw [hgoal]
      simp
    · intro z hz y hy
      rcases List.mem_append.mp hy with hyP | hyx
      · exact hcross z (List.mem_cons_of_mem _ hz) y hyP
      · simp only [List.mem_singleton] at hyx
        subst hyx
        exact (List.pairwise_cons.mp hpw).1 z hz

theorem insSort_rev (le : Row → Row → Bool) (L : List Row)
    (h : L.Pairwise (fun a b => le a b = true ∧ le b a = false)) :
    insSort (fun a b => le b a) L = L.reverse := by
  have := insSort_rev_go le L [] (by simp) h
  simpa [insSort] using this

/-- C8: Sort is a permutation of the table, sorted (stably) by the value
at `column` (missing read as the empty string) ascending; consequently,
for a table whose sort keys are pairwise comparable with no ties,
sorting ascending and then sorting the result descending yields exactly
the reverse of the first sort's row order. -/
theorem c8_sort_reverse_law (col : String) (T : List Row)
    (hcomp : ∀ a ∈ T, ∀ b ∈ T, comparableB (sortKey col a) (sortKey col b) = true)
    (hnoties : T.Pairwise (fun a b => pyEqB (sortKey col a) (sortKey col b) = false)) :
    (sortCore false col T).Perm T ∧
    (sortCore false col T).Pairwise (fun a b => rowLe col false a b = true) ∧
    sortCore true col (sortCore false col T) = (sortCore false col T).reverse := by
  have hperm : (sortCore false col T).Perm T := insSort_perm _ T
  have hsorted : (sortCore false col T).Pairwise (fun a b => rowLe col false a b = true) := by
    apply insSort_pairwise
    · intro a _ b _
      exact rowLe_total col false a b
    · intro a ha b hb c hc h1 h2
      have p1 := (rowLe_some (hcomp a ha b hb)).mp h1
      have p2 := (rowLe_some (hcomp b hb c hc)).mp h2
      exact (rowLe_some (hcomp a ha c hc)).mpr (pyLeB_transitive p1 p2)
  have hsym : Symmetric (fun a b : Row => pyEqB (sortKey col a) (sortKey col b) = false) := by
    intro a b h
    rw [pyEqB_symm]
    exact h
  have hnoL : (sortCore false col T).Pairwise
      (fun a b => pyEqB (sortKey col a) (sortKey col b) = false) :=
    (List.Perm.pairwise_iff (fun {x y} h => hsym h) hperm).mpr hnoties
  have hstrict : (sortCore false col T).Pairwise
      (fun a b => rowLe col false a b = true ∧ rowLe col false b a = false) := by
    apply List.Pairwise.imp_of_mem ?_ (hsorted.and hnoL)
    intro a b ha hb h
    refine ⟨h.1, ?_⟩
    cases hba : rowLe col false b a with
    | false => rfl
    | true =>
      exfalso
      have haT : a ∈ T := hperm.mem_iff.mp ha
      have hbT : b ∈ T := hperm.mem_iff.mp hb
      have p1 := (rowLe_some (hcomp a haT b hbT)).mp h.1
      have p2 := (rowLe_some (hcomp b hbT a haT)).mp hba
      have heq := pyLeB_antisymmetric p1 p2
      rw [h.2] at heq
      exact Bool.noConfusion heq
  refine ⟨hperm, hsorted, ?_⟩
  show insSort (rowLe col true) (sortCore false col T) = (sortCore false col T).reverse
  rw [rowLe_flip]
  exact insSort_rev _ _ hstrict

theorem c8_witness :
    (sortCore false "v" [[("v", Value.int 3)], [("v", Value.int 1)], [("v", Value.int 2)]]).Perm
      [[("v", Value.int 3)], [("v", Value.int 1)], [("v", Value.int 2)]] ∧
    (sortCore false "v"
      [[("v", Value.int 3)], [("v", Value.int 1)], [("v", Value.int 2)]]).Pairwise
        (fun a b => rowLe "v" false a b = true) ∧
    sortCore true "v" (sortCore false "v"
        [[("v", Value.int 3)], [("v", Value.int 1)], [("v", Value.int 2)]]) =
      (sortCore false "v" [[("v", Value.int 3)], [("v", Value.int 1)], [("v", Value.int 2)]]).reverse :=
  c8_sort_reverse_law "v" [[("v", Value.int 3)], [("v", Value.int 1)], [("v", Value.int 2)]]
    (by decide) (by decide)

/-! Heap model: C7. -/

theorem pres_refl (dex : Nat) (h : Heap) : Pres dex h h :=
  ⟨fun _ _ hh => hh, fun _ _ hh => hh, fun _ _ _ hh => hh⟩

theorem pres_trans {dex : Nat} {h1 h2 h3 : Heap} (a : Pres dex h1 h2) (b : Pres dex h2 h3) :
    Pres dex h1 h3 :=
  ⟨fun x r hr => b.rowsP x r (a.rowsP x r hr),
   fun x l hl => b.listsP x l (a.listsP x l hl),
   fun x e hne he => b.dictsP x e hne (a.dictsP x e hne he)⟩

theorem hm_bind_eq {α β : Type} (x : HM α) (f : α → HM β) (h : Heap) :
    (x >>= f) h = (match x h with
      | (h1, Except.ok a) => f a h1
      | (h1, Except.error e) => (h1, Except.error e)) := rfl

theorem hpres_pure {dex : Nat} {α : Type} (a : α) : HPres dex (pure a : HM α) :=
  fun h => pres_refl dex h

theorem hpres_bind {dex : Nat} {α β : Type} {x : HM α} {f : α → HM β}
    (hx : HPres dex x) (hf : ∀ a, HPres dex (f a)) : HPres dex (x >>= f) := by
  intro h
  rw [hm_bind_eq]
  cases hxh : x h with
  | mk h1 r =>
    have p1 : Pres dex h h1 := by
      have := hx h
      rw [hxh] at this
      exact this
    cases r with
    | ok a => exact pres_trans p1 (hf a h1)
    | error e => exact p1

theorem hpres_of_heap_id {dex : Nat} {α : Type} {m : HM α} (hid : ∀ h, (m h).1 = h) :
    HPres dex m := by
  intro h
  rw [hid h]
  exact pres_refl dex h

theorem hpres_hFail {dex : Nat} {α : Type} (e : PyErr) : HPres dex (hFail e : HM α) :=
  hpres_of_heap_id (fun _ => rfl)

theorem hpres_readDict (dex d : Nat) : HPres dex (readDict d) :=
  hpres_of_heap_id (fun h => by unfold readDict; cases dlookup h.dicts d <;> rfl)

theorem hpres_readList (dex a : Nat) : HPres dex (readList a) :=
  hpres_of_heap_id (fun h => by unfold readList; cases dlookup h.lists a <;> rfl)

theorem hpres_readRow (dex a : Nat) : HPres dex (readRow a) :=
  hpres_of_heap_id (fun h => by unfold readRow; cases dlookup h.rows a <;> rfl)

theorem hpres_allocRow (dex : Nat) (r : Row) : HPres dex (allocRow r) := by
  intro h
  exact ⟨fun a rr hr => dlookup_append_of_some _ hr,
    fun a l hl => hl,
    fun a e _ he => he⟩

theorem hpres_allocList (dex : Nat) (l : List Nat) : HPres dex (allocList l) := by
  intro h
  exact ⟨fun a rr hr => hr,
    fun a ll hl => dlookup_append_of_some _ hl,
    fun a e _ he => he⟩

theorem hpres_dictSet (dex : Nat) (k : String) (a : Nat) : HPres dex (dictSet dex k a) := by
  intro h
  unfold dictSet
  cases hq : dlookup h.dicts dex with
  | none =>
    simp only [hq]
    exact pres_refl dex h
  | some e =>
    simp only [hq]
    refine ⟨fun _ _ hr => hr, fun _ _ hl => hl, ?_⟩
    intro a2 e2 hne he
    show dlookup (dset h.dicts dex (dset e k a)) a2 = some e2
    rw [dlookup_dset_ne _ _ _ _ hne]
    exact he

theorem hpres_hMapM {dex : Nat} {α β : Type} (f : α → HM β) (hf : ∀ x, HPres dex (f x))
    (l : List α) : HPres dex (hMapM f l) := by
  induction l with
  | nil => exact hpres_pure _
  | cons x t ih =>
    show HPres dex (f x >>= fun y => hMapM f t >>= fun ys => pure (y :: ys))
    exact hpres_bind (hf x) (fun y => hpres_bind ih (fun ys => hpres_pure _))

theorem hpres_readTable (dex la : Nat) : HPres dex (readTable la) :=
  hpres_bind (hpres_readList dex la)
    (fun addrs => hpres_hMapM readRow (fun a => hpres_readRow dex a) addrs)

theorem hpres_readNTS (dex d : Nat) : HPres dex (readNTS d) :=
  hpres_bind (hpres_readDict dex d)
    (fun es => hpres_hMapM _
      (fun ka => hpres_bind (hpres_readTable dex ka.2) (fun t => hpres_pure _)) es)

theorem hpres_writeTable (dex : Nat) (t : Table) : HPres dex (writeTable t) :=
  hpres_bind (hpres_hMapM allocRow (fun r => hpres_allocRow dex r) t)
    (fun addrs => hpres_allocList dex addrs)

theorem hpres_hApplyOp (op : OpConfig) (d : Nat) : HPres d (hApplyOp op d) := by
  show HPres d (readNTS d >>= fun nts => _)
  apply hpres_bind (hpres_readNTS d d)
  intro nts
  cases applyOp op nts with
  | error e => exact hpres_hFail e
  | ok nts2 =>
    show HPres d (match dlookup nts2 (opTarget op) with
      | some out => writeTable out >>= fun la => dictSet d (opTarget op) la
      | Option.none => (pure () : HM Unit))
    cases dlookup nts2 (opTarget op) with
    | none => exact hpres_pure _
    | some out =>
      exact hpres_bind (hpres_writeTable d out) (fun la => hpres_dictSet d (opTarget op) la)

theorem hpres_hRunFrom (d : Nat) (ops : List OpConfig) : ∀ i : Nat, HPres d (hRunFrom d i ops) := by
  induction ops with
  | nil => intro i; exact hpres_pure _
  | cons op t ih =>
    intro i h
    cases hx : hApplyOp op d h with
    | mk h1 r =>
      have p1 : Pres d h h1 := by
        have := hpres_hApplyOp op d h
        rw [hx] at this
        exact this
      cases r with
      | ok u =>
        have heq : (hRunFrom d i (op :: t)) h = hRunFrom d (i + 1) t h1 := by
          simp [hRunFrom, hx]
        rw [heq]
        exact pres_trans p1 (ih (i + 1) h1)
      | error e =>
        have heq : ((hRunFrom d i (op :: t)) h).1 = h1 := by
          simp [hRunFrom, hx]
        rw [heq]
        exact p1

theorem optionMapM_mono {α β : Type} {F G : α → Option β}
    (hFG : ∀ x y, F x = some y → G x = some y) :
    ∀ {l : List α} {ys : List β}, l.mapM F = some ys → l.mapM G = some ys := by
  intro l
  induction l with
  | nil => intro ys h; simpa using h
  | cons x t ih =>
    intro ys h
    rw [List.mapM_cons] at h ⊢
    cases hx : F x with
    | none => rw [hx] at h; simp at h
    | some y =>
      rw [hx] at h
      cases ht : t.mapM F with
      | none =>
        rw [ht] at h
        simp at h
      | some ys2 =>
        rw [ht] at h
        rw [hFG x y hx, ih ht]
        simpa using h

theorem obsTable_mono {h h2 : Heap}
    (hrows : ∀ a r, dlookup h.rows a = some r → dlookup h2.rows a = some r)
    (hlists : ∀ a l, dlookup h.lists a = some l → dlookup h2.lists a = some l)
    {la : Nat} {t : Table} (hobs : obsTable h la = some t) : obsTable h2 la = some t := by
  unfold obsTable at hobs ⊢
  cases hl : dlookup h.lists la with
  | none => rw [hl] at hobs; simp at hobs
  | some addrs =>
    rw [hl] at hobs
    rw [hlists la addrs hl]
    exact optionMapM_mono (fun a r hr => hrows a r hr) hobs

theorem obsNTS_mono {h h2 : Heap} {d : Nat} {v : NTS}
    (hrows : ∀ a r, dlookup h.rows a = some r → dlookup h2.rows a = some r)
    (hlists : ∀ a l, dlookup h.lists a = some l → dlookup h2.lists a = some l)
    (hdict : ∀ a e, dlookup h.dicts a = some e → dlookup h2.dicts a = some e)
    (hobs : obsNTS h d = some v) : obsNTS h2 d = some v := by
  unfold obsNTS at hobs ⊢
  cases hd : dlookup h.dicts d with
  | none => rw [hd] at hobs; simp at hobs
  | some es =>
    rw [hd] at hobs
    rw [hdict d es hd]
    refine optionMapM_mono ?_ hobs
    intro ka y hy
    cases hot : obsTable h ka.2 with
    | none => rw [hot] at hy; simp at hy
    | some t =>
      rw [hot] at hy
      rw [obsTable_mono hrows hlists hot]
      exact hy

/-- C7: running any pipeline through the heap model leaves every
pre-existing object intact: all row, list and dict objects readable
before the call read the same afterwards (the executor mutates only the
shallow copy `data.copy()` it allocates, and no operator writes to a
pre-existing row or list object), so the caller's input named table set
observes unchanged through any retained reference. -/
theorem c7_pipeline_preserves_input (steps : List OpConfig) (h0 : Heap) (d0 : Nat) (v : NTS)
    (hwf : heapWF h0) (hobs : obsNTS h0 d0 = some v) :
    obsNTS ((hRunPipeline steps d0 h0).1) d0 = some v ∧
    (∀ a r, dlookup h0.rows a = some r → dlookup ((hRunPipeline steps d0 h0).1).rows a = some r) ∧
    (∀ a l, dlookup h0.lists a = some l →
      dlookup ((hRunPipeline steps d0 h0).1).lists a = some l) ∧
    (∀ a e, dlookup h0.dicts a = some e →
      dlookup ((hRunPipeline steps d0 h0).1).dicts a = some e) := by
  obtain ⟨es0, hd⟩ : ∃ es0, dlookup h0.dicts d0 = some es0 := by
    unfold obsNTS at hobs
    cases hq : dlookup h0.dicts d0 with
    | none => rw [hq] at hobs; simp at hobs
    | some es => exact ⟨es, rfl⟩
  have e1 : readDict d0 h0 = (h0, Except.ok es0) := by
    unfold readDict
    rw [hd]
  have hfin : (hRunPipeline steps d0 h0).1 =
      (hRunFrom h0.next 0 steps
        { h0 with dicts := h0.dicts ++ [(h0.next, es0)], next := h0.next + 1 }).1 := by
    show ((readDict d0 >>= fun es => allocDict es >>= fun d1 =>
      hRunFrom d1 0 steps >>= fun _ => pure d1) h0).1 = _
    rw [hm_bind_eq, e1]
    show (((allocDict es0 >>= fun d1 => hRunFrom d1 0 steps >>= fun _ => pure d1)) h0).1 = _
    rw [hm_bind_eq]
    show ((hRunFrom h0.next 0 steps >>= fun _ => pure h0.next)
      { h0 with dicts := h0.dicts ++ [(h0.next, es0)], next := h0.next + 1 }).1 = _
    rw [hm_bind_eq]
    cases hRunFrom h0.next 0 steps
        { h0 with dicts := h0.dicts ++ [(h0.next, es0)], next := h0.next + 1 } with
    | mk h2 r => cases r <;> rfl
  have hp : Pres h0.next
      { h0 with dicts := h0.dicts ++ [(h0.next, es0)], next := h0.next + 1 }
      ((hRunFrom h0.next 0 steps
        { h0 with dicts := h0.dicts ++ [(h0.next, es0)], next := h0.next + 1 }).1) :=
    hpres_hRunFrom h0.next steps 0 _
  have hrows : ∀ a r, dlookup h0.rows a = some r →
      dlookup ((hRunPipeline steps d0 h0).1).rows a = some r := by
    intro a r hr
    rw [hfin]
    exact hp.rowsP a r hr
  have hlists : ∀ a l, dlookup h0.lists a = some l →
      dlookup ((hRunPipeline steps d0 h0).1).lists a = some l := by
    intro a l hl
    rw [hfin]
    exact hp.listsP a l hl
  have hdicts : ∀ a e, dlookup h0.dicts a = some e →
      dlookup ((hRunPipeline steps d0 h0).1).dicts a = some e := by
    intro a e he
    rw [hfin]
    have hlt : a < h0.next := hwf.2.2 (a, e) (dlookup_mem he)
    have hne : a ≠ h0.next := Nat.ne_of_lt hlt
    apply hp.dictsP a e hne
    show dlookup (h0.dicts ++ [(h0.next, es0)]) a = some e
    exact dlookup_append_of_some _ he
  exact ⟨obsNTS_mono hrows hlists hdicts hobs, hrows, hlists, hdicts⟩

theorem c7_witness :
    obsNTS ((hRunPipeline [OpConfig.rename ⟨some "t", [("a", "b")]⟩] 2
        ⟨[(0, [("a", Value.int 1)])], [(1, [0])], [(2, [("t", 1)])], 3⟩).1) 2 =
      some [("t", [[("a", Value.int 1)]])] ∧
    (∀ a r, dlookup ([(0, [("a", Value.int 1)])] : List (Nat × Row)) a = some r →
      dlookup ((hRunPipeline [OpConfig.rename ⟨some "t", [("a", "b")]⟩] 2
        ⟨[(0, [("a", Value.int 1)])], [(1, [0])], [(2, [("t", 1)])], 3⟩).1).rows a = some r) ∧
    (∀ a l, dlookup ([(1, [0])] : List (Nat × List Nat)) a = some l →
      dlookup ((hRunPipeline [OpConfig.rename ⟨some "t", [("a", "b")]⟩] 2
        ⟨[(0, [("a", Value.int 1)])], [(1, [0])], [(2, [("t", 1)])], 3⟩).1).lists a = some l) ∧
    (∀ a e, dlookup ([(2, [("t", 1)])] : List (Nat × List (String × Nat))) a = some e →
      dlookup ((hRunPipeline [OpConfig.rename ⟨some "t", [("a", "b")]⟩] 2
        ⟨[(0, [("a", Value.int 1)])], [(1, [0])], [(2, [("t", 1)])], 3⟩).1).dicts a = some e) :=
  c7_pipeline_preserves_input [OpConfig.rename ⟨some "t", [("a", "b")]⟩] 
    ⟨[(0, [("a", Value.int 1)])], [(1, [0])], [(2, [("t", 1)])], 3⟩ 2
    [("t", [[("a", Value.int 1)]])]
    (by unfold heapWF; refine ⟨?_, ?_, ?_⟩ <;> decide)
    (by decide)
